import Mathlib

/-!
# Verification of the CSS box-tree generator (css-box-tree)

Shallow embedding of `src/core/styleResolver.ts`, `src/core/types.ts` and
`src/core/boxTreeGenerator.ts`.  Source elements and text runs are modelled
as an inductive tree carrying numeric identities; the module-global
`nodeIdCounter` is modelled by explicit counter passing (the TS id string
`box-${n}` is represented by the number `n`, an injective renaming).  The
markup parser (`src/core/parser.ts`, not present in the sources) is treated
as an external collaborator per the specification: the generator takes the
parser's result directly.
-/

namespace CssBoxTree

/-- `DisplayType` from `src/core/types.ts`: the closed display-keyword
enumeration. -/
inductive DisplayType where
  | block | inline | inlineBlock | flex | inlineFlex | grid | inlineGrid
  | listItem | none | contents
  | table | inlineTable | tableRow | tableCell
  | tableHeaderGroup | tableFooterGroup | tableRowGroup
  | tableColumn | tableColumnGroup | tableCaption
  | ruby | rubyBase | rubyText | rubyBaseContainer | rubyTextContainer
  deriving DecidableEq, Repr

/-- `BoxType` from `src/core/types.ts`. -/
inductive BoxType where
  | block | inline | inlineBlock
  | flexContainer | flexItem | gridContainer | gridItem
  | listItem | listMarker
  | anonymousBlock | anonymousInline | anonymousFlexItem | anonymousGridItem
  | none
  deriving DecidableEq, Repr

/-- `generatesBox` (styleResolver.ts): every display type except `none`. -/
def generatesBox (d : DisplayType) : Bool := d != .none

/-- `isContents` (styleResolver.ts). -/
def isContents (d : DisplayType) : Bool := d == .contents

/-- `isBlockLevel` (styleResolver.ts): membership in the literal list. -/
def isBlockLevel : DisplayType → Bool
  | .block | .flex | .grid | .listItem | .table | .tableCaption
  | .tableHeaderGroup | .tableFooterGroup | .tableRowGroup
  | .tableColumnGroup | .tableColumn | .tableRow | .tableCell => true
  | _ => false

/-- `isInlineLevel` (styleResolver.ts). -/
def isInlineLevel : DisplayType → Bool
  | .inline | .inlineBlock | .inlineFlex | .inlineGrid | .inlineTable
  | .ruby | .rubyBase | .rubyText | .rubyBaseContainer | .rubyTextContainer => true
  | _ => false

/-- `establishesBlockFormattingContext` (styleResolver.ts).  The TS list also
names `'flow-root'`, which is not a member of `DisplayType` and therefore can
never match; it has no counterpart here. -/
def establishesBlockFormattingContext : DisplayType → Bool
  | .inlineBlock | .flex | .inlineFlex | .grid | .inlineGrid
  | .table | .inlineTable | .tableCell | .tableCaption => true
  | _ => false

/-- `blockifiesChildren` (styleResolver.ts). -/
def blockifiesChildren : DisplayType → Bool
  | .flex | .inlineFlex | .grid | .inlineGrid => true
  | _ => false

/-- `isBlockContainer` (styleResolver.ts).  The unreachable `'flow-root'`
entry is again dropped. -/
def isBlockContainer : DisplayType → Bool
  | .block | .inlineBlock | .tableCell | .listItem => true
  | _ => false

/-! ## String machinery for the inline-style scanner

`getDisplayFromStyle` uses the JS regex `/display\s*:\s*([^;]+)/i` followed by
`.trim().toLowerCase()`.  We model the JS whitespace class (used both by `\s`
and by `String.prototype.trim`) and the regex scan over the character list.
-/

/-- JS whitespace (the `\s` class and `trim`): ASCII whitespace plus the
Unicode space separators, line separators and the BOM. -/
def isJsWs (c : Char) : Bool :=
  c = ' ' || c = '\t' || c = '\n' || c = '\r' || c.val = 11 || c.val = 12 ||
  c.val = 0xa0 || c.val = 0x1680 || (0x2000 ≤ c.val && c.val ≤ 0x200a) ||
  c.val = 0x2028 || c.val = 0x2029 || c.val = 0x202f || c.val = 0x205f ||
  c.val = 0x3000 || c.val = 0xfeff

/-- JS `String.prototype.toLowerCase` (ASCII model), over the string's
character list. -/
def strToLower (s : String) : String := String.mk (s.data.map Char.toLower)

/-- JS `String.prototype.trim` on a character list. -/
def jsTrim (cs : List Char) : List Char :=
  ((cs.dropWhile isJsWs).reverse.dropWhile isJsWs).reverse

/-- `isWhitespaceOnly` (boxTreeGenerator.ts): `text.trim().length === 0`. -/
def isWhitespaceOnly (s : String) : Bool := s.toList.all isJsWs

/-- Case-insensitive match of the literal letters of `display` (the regex has
the `i` flag). -/
def stripDisplayWord : List Char → Option (List Char)
  | c1 :: c2 :: c3 :: c4 :: c5 :: c6 :: c7 :: rest =>
    if c1.toLower = 'd' && c2.toLower = 'i' && c3.toLower = 's' &&
       c4.toLower = 'p' && c5.toLower = 'l' && c6.toLower = 'a' &&
       c7.toLower = 'y' then some rest else Option.none
  | _ => Option.none

/-- Try to match `display\s*:\s*([^;]+)` at the head of the list, returning
the capture.  The capture we return keeps the whitespace the regex's second
`\s*` would eat; since the caller trims the capture, the final value is
identical. -/
def tryMatchDisplayAt (cs : List Char) : Option (List Char) :=
  match stripDisplayWord cs with
  | Option.none => Option.none
  | some rest =>
    match (rest.dropWhile isJsWs) with
    | ':' :: rest2 =>
      let v := rest2.takeWhile (fun c => c ≠ ';')
      if v.isEmpty then Option.none else some v
    | _ => Option.none

/-- The regex scan: try each start position left to right, first full match
wins (the engine advances one character after a failed start). -/
def findDisplayValue : List Char → Option (List Char)
  | [] => Option.none
  | c :: rest =>
    match tryMatchDisplayAt (c :: rest) with
    | some v => some v
    | Option.none => findDisplayValue rest

/-- The `displayMap` lookup in `getDisplayFromStyle`. -/
def keywordOfString : String → Option DisplayType
  | "block" => some .block
  | "inline" => some .inline
  | "inline-block" => some .inlineBlock
  | "flex" => some .flex
  | "inline-flex" => some .inlineFlex
  | "grid" => some .grid
  | "inline-grid" => some .inlineGrid
  | "list-item" => some .listItem
  | "none" => some .none
  | "contents" => some .contents
  | "table" => some .table
  | "inline-table" => some .inlineTable
  | "table-row" => some .tableRow
  | "table-cell" => some .tableCell
  | "table-header-group" => some .tableHeaderGroup
  | "table-footer-group" => some .tableFooterGroup
  | "table-row-group" => some .tableRowGroup
  | "table-column" => some .tableColumn
  | "table-column-group" => some .tableColumnGroup
  | "table-caption" => some .tableCaption
  | "ruby" => some .ruby
  | "ruby-base" => some .rubyBase
  | "ruby-text" => some .rubyText
  | "ruby-base-container" => some .rubyBaseContainer
  | "ruby-text-container" => some .rubyTextContainer
  | _ => Option.none

/-- `displayMatch[1].trim().toLowerCase()` applied to a raw capture. -/
def normalizeValue (v : List Char) : String :=
  String.mk ((jsTrim v).map Char.toLower)

/-- `getDisplayFromStyle` (styleResolver.ts).  A `null` or empty style
attribute is falsy in JS and short-circuits to `null`. -/
def getDisplayFromStyle : Option String → Option DisplayType
  | Option.none => Option.none
  | some s =>
    if s = "" then Option.none
    else
      match findDisplayValue s.toList with
      | Option.none => Option.none
      | some v => keywordOfString (normalizeValue v)

/-- `DEFAULT_DISPLAY_TYPES` (types.ts): the static tag-name table. -/
def defaultDisplayFor : String → Option DisplayType
  | "div" => some .block
  | "p" => some .block
  | "section" => some .block
  | "article" => some .block
  | "header" => some .block
  | "footer" => some .block
  | "nav" => some .block
  | "aside" => some .block
  | "main" => some .block
  | "h1" => some .block
  | "h2" => some .block
  | "h3" => some .block
  | "h4" => some .block
  | "h5" => some .block
  | "h6" => some .block
  | "ul" => some .block
  | "ol" => some .block
  | "li" => some .listItem
  | "dl" => some .block
  | "dt" => some .block
  | "dd" => some .block
  | "blockquote" => some .block
  | "pre" => some .block
  | "hr" => some .block
  | "address" => some .block
  | "fieldset" => some .block
  | "legend" => some .block
  | "table" => some .table
  | "thead" => some .tableHeaderGroup
  | "tbody" => some .tableRowGroup
  | "tfoot" => some .tableFooterGroup
  | "tr" => some .tableRow
  | "td" => some .tableCell
  | "th" => some .tableCell
  | "col" => some .tableColumn
  | "colgroup" => some .tableColumnGroup
  | "caption" => some .tableCaption
  | "span" => some .inline
  | "a" => some .inline
  | "em" => some .inline
  | "strong" => some .inline
  | "i" => some .inline
  | "b" => some .inline
  | "u" => some .inline
  | "small" => some .inline
  | "sub" => some .inline
  | "sup" => some .inline
  | "code" => some .inline
  | "kbd" => some .inline
  | "samp" => some .inline
  | "var" => some .inline
  | "mark" => some .inline
  | "time" => some .inline
  | "abbr" => some .inline
  | "acronym" => some .inline
  | "dfn" => some .inline
  | "cite" => some .inline
  | "q" => some .inline
  | "img" => some .inline
  | "input" => some .inline
  | "button" => some .inline
  | "select" => some .inline
  | "textarea" => some .inline
  | "iframe" => some .inline
  | "object" => some .inline
  | "embed" => some .inline
  | "video" => some .inline
  | "audio" => some .inline
  | "canvas" => some .inline
  | "br" => some .inline
  | "wbr" => some .inline
  | _ => Option.none

/-- `getComputedDisplayType` (styleResolver.ts), over an element's style
attribute and tag name: inline style wins, else the tag table, else
`block`. -/
def resolveDisplay (style : Option String) (tag : String) : DisplayType :=
  match getDisplayFromStyle style with
  | some d => d
  | Option.none => (defaultDisplayFor (strToLower tag)).getD .block

/-! ## The source tree and the box tree -/

/-- A source node as delivered by the parser collaborator: an element (with
numeric identity, tag name, `className`, optional `style` attribute and child
nodes) or a text run (numeric identity and content).  Other DOM node kinds
are skipped by every loop in the generator and are not modelled. -/
inductive SNode where
  | elem (eid : Nat) (tag : String) (className : String)
         (style : Option String) (kids : List SNode)
  | text (tid : Nat) (content : String)

mutual
/-- Size of a source node, for termination measures. -/
def sizeN : SNode → Nat
  | .text _ _ => 1
  | .elem _ _ _ _ kids => 1 + sizeL kids
/-- Total size of a list of source nodes. -/
def sizeL : List SNode → Nat
  | [] => 0
  | n :: rest => sizeN n + sizeL rest
end

theorem sizeN_pos (n : SNode) : 0 < sizeN n := by
  cases n <;> simp [sizeN]

theorem sizeL_cons (n : SNode) (rest : List SNode) :
    sizeL (n :: rest) = sizeN n + sizeL rest := rfl

/-- `resolveDisplay` applied to an element node (text nodes do not occur). -/
def displayOf (st : Option String) (tag : String) : DisplayType :=
  resolveDisplay st tag

/-- Whether a source node is an element (`nodeType === ELEMENT_NODE`). -/
def SNode.isElem : SNode → Bool
  | .elem _ _ _ _ _ => true
  | .text _ _ => false

mutual
/-- `element.textContent`: concatenation of all descendant text runs. -/
def textContentN : SNode → String
  | .text _ s => s
  | .elem _ _ _ _ kids => textContentL kids
/-- `textContent` of a node list. -/
def textContentL : List SNode → String
  | [] => ""
  | n :: rest => textContentN n ++ textContentL rest
end

/-- Number of element children (`element.children.length`). -/
def countElemKids (kids : List SNode) : Nat :=
  (kids.filter SNode.isElem).length

/-- A box node (`BoxNode` in types.ts).  `id` is the numeric part of the TS
`box-${n}` string; `element`/`textNode` hold source identities. -/
inductive BoxNode where
  | mk (id : Nat) (boxType : BoxType) (displayType : Option DisplayType)
       (element : Option Nat) (textContent : Option String)
       (tagName : Option String) (className : Option String)
       (style : Option String) (children : List BoxNode)
       (isAnonymous : Bool) (isEmpty : Bool) (textNode : Option Nat)

def BoxNode.id : BoxNode → Nat
  | .mk i _ _ _ _ _ _ _ _ _ _ _ => i
def BoxNode.boxType : BoxNode → BoxType
  | .mk _ bt _ _ _ _ _ _ _ _ _ _ => bt
def BoxNode.displayType : BoxNode → Option DisplayType
  | .mk _ _ dt _ _ _ _ _ _ _ _ _ => dt
def BoxNode.element : BoxNode → Option Nat
  | .mk _ _ _ el _ _ _ _ _ _ _ _ => el
def BoxNode.textContent : BoxNode → Option String
  | .mk _ _ _ _ tc _ _ _ _ _ _ _ => tc
def BoxNode.tagName : BoxNode → Option String
  | .mk _ _ _ _ _ tn _ _ _ _ _ _ => tn
def BoxNode.children : BoxNode → List BoxNode
  | .mk _ _ _ _ _ _ _ _ ch _ _ _ => ch
def BoxNode.textNode : BoxNode → Option Nat
  | .mk _ _ _ _ _ _ _ _ _ _ _ tn => tn

/-- `createAnonymousBlockBox` with its eventual children (the TS creates the
box empty and then assigns `children`). -/
def mkAnonBlock (i : Nat) (ch : List BoxNode) : BoxNode :=
  .mk i .anonymousBlock Option.none Option.none Option.none Option.none
     Option.none Option.none ch true false Option.none

/-- `createAnonymousInlineBox`. -/
def mkAnonInline (i : Nat) (txt : String) (tid : Nat) : BoxNode :=
  .mk i .anonymousInline Option.none Option.none (some txt) Option.none
     Option.none Option.none [] true (isWhitespaceOnly txt) (some tid)

/-- `createAnonymousFlexItem`. -/
def mkAnonFlexItem (i : Nat) (txt : String) (tid : Nat) : BoxNode :=
  .mk i .anonymousFlexItem Option.none Option.none (some txt) Option.none
     Option.none Option.none [] true (isWhitespaceOnly txt) (some tid)

/-- `createAnonymousGridItem`. -/
def mkAnonGridItem (i : Nat) (txt : String) (tid : Nat) : BoxNode :=
  .mk i .anonymousGridItem Option.none Option.none (some txt) Option.none
     Option.none Option.none [] true (isWhitespaceOnly txt) (some tid)

/-- `getBoxTypeFromDisplay` (boxTreeGenerator.ts). -/
def getBoxTypeFromDisplay (d : DisplayType) (isLi : Bool) : BoxType :=
  if isLi then .listItem
  else
    match d with
    | .block => .block
    | .inline => .inline
    | .inlineBlock => .inlineBlock
    | .flex => .flexContainer
    | .inlineFlex => .flexContainer
    | .grid => .gridContainer
    | .inlineGrid => .gridContainer
    | _ => .block

/-- The `boxType` computed by `createBoxFromElement`: when the parent
blockifies and its display type is known (non-null, hence truthy), every
branch of the TS `if`/`else if`/`else` yields the same flex/grid item kind;
otherwise the display-derived kind stands. -/
def blockifiedBoxType (d : DisplayType) (parentBlockifies : Bool)
    (pd : Option DisplayType) : BoxType :=
  let bt := getBoxTypeFromDisplay d (d == .listItem)
  match pd with
  | some p =>
    if parentBlockifies then
      if p == .grid || p == .inlineGrid then .gridItem else .flexItem
    else bt
  | Option.none => bt

/-- `createBoxFromElement` (boxTreeGenerator.ts), split into a pure record
builder: the id is allocated by the caller before the children are produced,
matching the TS creation order. -/
def mkElemBox (eid : Nat) (tag : String) (cn : String) (st : Option String)
    (kids : List SNode) (d : DisplayType) (parentBlockifies : Bool)
    (pd : Option DisplayType) (i : Nat) (ch : List BoxNode) : BoxNode :=
  .mk i (blockifiedBoxType d parentBlockifies pd) (some d) (some eid)
     Option.none (some (strToLower tag)) (if cn = "" then Option.none else some cn)
     st ch false
     (countElemKids kids == 0 && isWhitespaceOnly (textContentL kids))
     Option.none

/-! ## The recursive generation algorithm -/

/-- `hasBlockLevelChildren` (boxTreeGenerator.ts), over an element's child
nodes: a direct in-flow block-level child, or a non-BFC inline child that
itself contains one (cascading split); `display:none` and `display:contents`
children are skipped without recursion. -/
def hasBlockKids : List SNode → Bool
  | [] => false
  | .text _ _ :: rest => hasBlockKids rest
  | .elem _ tag _ st kids :: rest =>
    let d := resolveDisplay st tag
    (if !(generatesBox d) || isContents d then false
     else if isBlockLevel d then true
     else if establishesBlockFormattingContext d then false
     else isInlineLevel d && hasBlockKids kids)
    || hasBlockKids rest
termination_by nodes => sizeL nodes
decreasing_by all_goals simp [sizeL, sizeN] <;> omega

/-- The `isInline` test of `wrapInlineInAnonymousBlocks`. -/
def isInlineForWrap (b : BoxNode) : Bool :=
  b.boxType == .inline || b.boxType == .inlineBlock ||
  b.boxType == .anonymousInline

/-- The blockish test of the anonymous-wrapping post-pass in
`processChildren` (its `hasBlockLevelChildren` predicate over boxes). -/
def isBlockishBox (b : BoxNode) : Bool :=
  b.boxType == .block || b.boxType == .flexContainer ||
  b.boxType == .gridContainer || b.boxType == .listItem ||
  b.boxType == .anonymousBlock

/-- Loop of `wrapInlineInAnonymousBlocks`: the open anonymous block is
`some (id, members)`; its id is allocated when the run starts.  The TS
`isBlock` branch and its final `else` branch perform the identical
close-and-push, so they are a single branch here. -/
def wrapGo : List BoxNode → Option (Nat × List BoxNode) → Nat →
    List BoxNode × Nat
  | [], Option.none, c => ([], c)
  | [], some (i, xs), c => ([mkAnonBlock i xs], c)
  | b :: bs, Option.none, c =>
    if isInlineForWrap b then wrapGo bs (some (c + 1, [b])) (c + 1)
    else
      let r := wrapGo bs Option.none c
      (b :: r.1, r.2)
  | b :: bs, some (i, xs), c =>
    if isInlineForWrap b then wrapGo bs (some (i, xs ++ [b])) c
    else
      let r := wrapGo bs Option.none c
      (mkAnonBlock i xs :: b :: r.1, r.2)

/-- `parentBlockifies` as computed in `processChildren` (a null parent
display is falsy). -/
def parentBlockifiesOf : Option DisplayType → Bool
  | some d => blockifiesChildren d
  | Option.none => false

/-- `parentIsBlockLevel` as computed in `processChildren` (defaults to
`true` on a null parent display). -/
def parentIsBlockLevelOf : Option DisplayType → Bool
  | some d => isBlockLevel d
  | Option.none => true

/-- `parentEstablishesBFC` as computed in `processChildren`. -/
def parentBFCOf : Option DisplayType → Bool
  | some d => establishesBlockFormattingContext d
  | Option.none => false

/-- `isParentBlockContainer` as computed in the `processChildren`
post-pass. -/
def parentIsBlockContainerOf : Option DisplayType → Bool
  | some d => isBlockContainer d
  | Option.none => false

/-- Closing a non-empty current inline run into a fresh anonymous block box
(`if (currentInlineContent.length > 0) { … }` in the splitting code). -/
def closeCur : List BoxNode → Nat → List BoxNode × Nat
  | [], c => ([], c)
  | x :: xs, c => ([mkAnonBlock (c + 1) (x :: xs)], c + 1)

/-- The anonymous box generated for a non-whitespace text run in
`processChildren`: a flex/grid item under a blockifying parent, otherwise an
anonymous inline box. -/
def textAnonBox (pd : Option DisplayType) (s : String) (tid i : Nat) :
    BoxNode :=
  match pd with
  | some p =>
    if blockifiesChildren p then
      if p == .grid || p == .inlineGrid then mkAnonGridItem i s tid
      else mkAnonFlexItem i s tid
    else mkAnonInline i s tid
  | Option.none => mkAnonInline i s tid

/-- The merge loop inside `processInlineWithBlockChildren` for a nested
(cascading) split: anonymous blocks contribute their children to the current
run, other boxes close the run and are appended.  Returns the emitted boxes,
the new current run and the counter. -/
def mergeNested : List BoxNode → List BoxNode → Nat →
    List BoxNode × List BoxNode × Nat
  | [], cur, c => ([], cur, c)
  | b :: bs, cur, c =>
    if b.boxType == .anonymousBlock then
      mergeNested bs (cur ++ b.children) c
    else
      let cl := closeCur cur c
      let r := mergeNested bs [] cl.2
      (cl.1 ++ b :: r.1, r.2.1, r.2.2)

mutual
/-- `processChildren` (boxTreeGenerator.ts): the sequential loop followed by
the anonymous-block wrapping post-pass. -/
def processChildrenFn (nodes : List SNode) (pd : Option DisplayType)
    (pbt : Option BoxType) (c : Nat) : List BoxNode × Nat :=
  let r := processLoop nodes pd pbt c
  if parentIsBlockContainerOf pd && !parentBlockifiesOf pd then
    if r.1.any isBlockishBox then wrapGo r.1 Option.none r.2 else r
  else r
termination_by 2 * sizeL nodes + 1
decreasing_by all_goals simp [sizeL, sizeN]

/-- The `while` loop of `processChildren`, one source node at a time. -/
def processLoop (nodes : List SNode) (pd : Option DisplayType)
    (pbt : Option BoxType) (c : Nat) : List BoxNode × Nat :=
  match nodes with
  | [] => ([], c)
  | .text tid s :: rest =>
    if isWhitespaceOnly s && parentIsBlockLevelOf pd then
      processLoop rest pd pbt c
    else if !(isWhitespaceOnly s) then
      let r := processLoop rest pd pbt (c + 1)
      (textAnonBox pd s tid (c + 1) :: r.1, r.2)
    else processLoop rest pd pbt c
  | .elem eid tag cn st kids :: rest =>
    let d := resolveDisplay st tag
    if !(generatesBox d) then processLoop rest pd pbt c
    else if isContents d then
      let cs := processChildrenFn kids pd pbt c
      let r := processLoop rest pd pbt cs.2
      (cs.1 ++ r.1, r.2)
    else if isInlineLevel d && !(parentBFCOf pd) && hasBlockKids kids &&
        !(establishesBlockFormattingContext d) then
      let sb := splitGo kids d (parentBlockifiesOf pd) [] c
      let r := processLoop rest pd pbt sb.2
      (sb.1 ++ r.1, r.2)
    else
      let bt := blockifiedBoxType d (parentBlockifiesOf pd) pd
      let ch := processChildrenFn kids d (some bt) (c + 1)
      let r := processLoop rest pd pbt ch.2
      (mkElemBox eid tag cn st kids d (parentBlockifiesOf pd) pd (c + 1)
        ch.1 :: r.1, r.2)
termination_by 2 * sizeL nodes
decreasing_by all_goals (simp [sizeL, sizeN] <;> omega)

/-- `processInlineWithBlockChildren` (boxTreeGenerator.ts): block-in-inline
splitting.  `cur` is the accumulated current inline run. -/
def splitGo (nodes : List SNode) (inlineD : DisplayType) (pb : Bool)
    (cur : List BoxNode) (c : Nat) : List BoxNode × Nat :=
  match nodes with
  | [] => closeCur cur c
  | .text tid s :: rest =>
    if isWhitespaceOnly s then splitGo rest inlineD pb cur c
    else splitGo rest inlineD pb (cur ++ [mkAnonInline (c + 1) s tid]) (c + 1)
  | .elem eid tag cn st kids :: rest =>
    let d := resolveDisplay st tag
    if !(generatesBox d) then splitGo rest inlineD pb cur c
    else if isContents d then
      let cs := processChildrenFn kids inlineD Option.none c
      splitGo rest inlineD pb (cur ++ cs.1) cs.2
    else if isBlockLevel d then
      let closed := closeCur cur c
      let bt := blockifiedBoxType d pb Option.none
      let ch := processChildrenFn kids d (some bt) (closed.2 + 1)
      let bb := mkElemBox eid tag cn st kids d pb Option.none (closed.2 + 1) ch.1
      let tail := splitGo rest inlineD pb [] ch.2
      (closed.1 ++ bb :: tail.1, tail.2)
    else
      if !(establishesBlockFormattingContext d) && hasBlockKids kids then
        let nested := splitGo kids d pb [] c
        let m := mergeNested nested.1 cur nested.2
        let tail := splitGo rest inlineD pb m.2.1 m.2.2
        (m.1 ++ tail.1, tail.2)
      else
        let bt := blockifiedBoxType d pb Option.none
        let ch := processChildrenFn kids d (some bt) (c + 1)
        let b := mkElemBox eid tag cn st kids d pb Option.none (c + 1) ch.1
        splitGo rest inlineD pb (cur ++ [b]) ch.2
termination_by 2 * sizeL nodes
decreasing_by all_goals (simp [sizeL, sizeN] <;> omega)
end

/-! ## Source-to-box map and the generator entry point -/

/-- A key of the `elementToBoxId` map: a source element or a text run. -/
inductive SrcKey where
  | elemKey (eid : Nat)
  | textKey (tid : Nat)
  deriving DecidableEq, Repr

/-- `ElementToBoxMap` (types.ts): both JS `Map`s, modelled as
insertion-ordered association lists. -/
structure ElemMap where
  e2b : List (SrcKey × Nat)
  b2e : List (Nat × List SrcKey)
  deriving DecidableEq, Repr

def emptyElemMap : ElemMap := ⟨[], []⟩

/-- `Map.has` + conditional `Map.set` for `elementToBoxId` (first mapping
wins). -/
def addE2B (m : List (SrcKey × Nat)) (k : SrcKey) (v : Nat) :
    List (SrcKey × Nat) :=
  if m.any (fun p => p.1 == k) then m else m ++ [(k, v)]

/-- `boxIdToElements`: create the entry on first use, then push the key. -/
def appendB2E (m : List (Nat × List SrcKey)) (i : Nat) (k : SrcKey) :
    List (Nat × List SrcKey) :=
  if m.any (fun p => p.1 == i) then
    m.map (fun p => if p.1 == i then (p.1, p.2 ++ [k]) else p)
  else m ++ [(i, [k])]

mutual
/-- `buildElementMap` (boxTreeGenerator.ts).  Besides the two maps it also
performs `node.element.setAttribute('data-box-id', node.id)`; that mutation
of the source tree is modelled by the returned write list of
`(element identity, box id)` pairs, in execution order. -/
def bemGo : BoxNode → ElemMap → ElemMap × List (Nat × Nat)
  | .mk i _ _ el _ _ _ _ ch _ _ tn, m =>
    let s1 : ElemMap × List (Nat × Nat) :=
      match el with
      | some eid =>
        (⟨addE2B m.e2b (.elemKey eid) i, appendB2E m.b2e i (.elemKey eid)⟩,
         [(eid, i)])
      | Option.none => (m, [])
    let m2 : ElemMap :=
      match tn with
      | some tid =>
        ⟨addE2B s1.1.e2b (.textKey tid) i, appendB2E s1.1.b2e i (.textKey tid)⟩
      | Option.none => s1.1
    let s3 := bemGoList ch m2
    (s3.1, s1.2 ++ s3.2)
/-- `buildElementMap` folded over a child list. -/
def bemGoList : List BoxNode → ElemMap → ElemMap × List (Nat × Nat)
  | [], m => (m, [])
  | b :: bs, m =>
    let s1 := bemGo b m
    let s2 := bemGoList bs s1.1
    (s2.1, s1.2 ++ s2.2)
end

mutual
/-- A box together with all its descendants, in pre-order. -/
def allBoxesN : BoxNode → List BoxNode
  | .mk i bt dt el tc tg cn st ch ia ie tn =>
    .mk i bt dt el tc tg cn st ch ia ie tn :: allBoxesL ch
/-- All boxes of a forest, in pre-order. -/
def allBoxesL : List BoxNode → List BoxNode
  | [] => []
  | b :: bs => allBoxesN b ++ allBoxesL bs
end

/-- All box ids of a forest, in pre-order. -/
def idsOfL (bs : List BoxNode) : List Nat := (allBoxesL bs).map BoxNode.id

/-- The parser collaborator's result: an internal failure (caught by the
generator's `try`/`catch`), a no-content result, or the body element given
by its identity and child nodes. -/
abbrev ParseResult := Except Unit (Option (Nat × List SNode))

/-- The hard-coded `body` root box of `generateBoxTree` (both the
needs-splitting and the multiple-children branches build this record): id 1,
kind `block`, display `block`, tag `body`, children processed under the
`block` context. -/
def bodyRoot (bid : Nat) (kids : List SNode) : BoxNode :=
  .mk 1 .block (some .block) (some bid) Option.none (some "body")
     Option.none Option.none (processChildrenFn kids (some .block)
       (some .block) 1).1 false false Option.none

/-- Result of the two `generateBoxTree` branches that keep the body box as
the root. -/
def bodyRootResult (bid : Nat) (kids : List SNode) :
    (Option BoxNode × ElemMap × List (Nat × Nat)) × Nat :=
  ((some (bodyRoot bid kids),
    (bemGo (bodyRoot bid kids) emptyElemMap).1,
    (bemGo (bodyRoot bid kids) emptyElemMap).2),
   (processChildrenFn kids (some .block) (some .block) 1).2)

/-- `generateBoxTree` (boxTreeGenerator.ts).  `globalCounter` is the value of
the module-global `nodeIdCounter` before the call; the function's first
action is `nodeIdCounter = 0`, so the result never depends on it.  The
parser collaborator's outcome is taken as the argument; a parser failure is
the `Except.error` case, swallowed by the surrounding `try`/`catch`. -/
def generateBoxTreeG (globalCounter : Nat) (pr : ParseResult) :
    (Option BoxNode × ElemMap × List (Nat × Nat)) × Nat :=
  match pr, globalCounter with
  | .error _, _ => ((Option.none, emptyElemMap, []), 0)
  | .ok Option.none, _ => ((Option.none, emptyElemMap, []), 0)
  | .ok (some (bid, kids)), _ =>
    let elemKids := kids.filter SNode.isElem
    let hasNWT := kids.any (fun n =>
      match n with
      | .text _ s => !(isWhitespaceOnly s)
      | _ => false)
    match elemKids with
    | [SNode.elem eid tag cn st ckids] =>
      if hasNWT then bodyRootResult bid kids
      else
        let d := resolveDisplay st tag
        if !(generatesBox d) then ((Option.none, emptyElemMap, []), 0)
        else if isInlineLevel d && !(establishesBlockFormattingContext d) &&
            hasBlockKids ckids then
          bodyRootResult bid kids
        else
          let ch := processChildrenFn ckids d
            (some (blockifiedBoxType d false Option.none)) 1
          let root := mkElemBox eid tag cn st ckids d false Option.none 1 ch.1
          let m := bemGo root emptyElemMap
          ((some root, m.1, m.2), ch.2)
    -- `elemKids` holds only elements, so this case is `length ≠ 1`
    | _ => bodyRootResult bid kids

/-- The outcome of one generation call (tree, map and source-tree attribute
writes), independent of the global counter's prior value. -/
def generateBoxTree (pr : ParseResult) :
    Option BoxNode × ElemMap × List (Nat × Nat) :=
  (generateBoxTreeG 0 pr).1

/-- Modelled from the spec: the markup parser collaborator
(`src/core/parser.ts` is not among the source files).  Spec §6: given a
text it returns a body element or a well-defined no-content result, and an
internal failure must not leak past the generator's boundary.  Any function
`parse` of this shape represents it; generation from an HTML string is
generation from the parse result. -/
def generateFromHtml (parse : String → ParseResult) (globalCounter : Nat)
    (html : String) : (Option BoxNode × ElemMap × List (Nat × Nat)) × Nat :=
  generateBoxTreeG globalCounter (parse html)

/-! ## Concrete fixtures

Concrete parse results (Modelled from the spec: the missing parser
collaborator maps the scenario's HTML text to the evident node tree, spec
§3/§6) used by scenario claims, counterexamples and witnesses. -/

/-- Parse result of `<span>Before<div>X</div>After</span>` (Scenario B). -/
def parsedScenarioB : ParseResult :=
  .ok (some (0, [.elem 1 "span" "" Option.none
    [.text 10 "Before",
     .elem 2 "div" "" Option.none [.text 11 "X"],
     .text 12 "After"]]))

/-- Parse result of `<div style="display:contents"><span>x</span></div>`:
a `display:contents` element as the single top-level child of the body. -/
def parsedContentsRoot : ParseResult :=
  .ok (some (0, [.elem 1 "div" "" (some "display:contents")
    [.elem 2 "span" "" Option.none [.text 10 "x"]]]))

/-- Parse result of `<div style="display:flex"><li>a</li></div>`: a
`list-item` element as direct child of a blockifying container. -/
def parsedFlexListItem : ParseResult :=
  .ok (some (0, [.elem 1 "div" "" (some "display:flex")
    [.elem 2 "li" "" Option.none [.text 20 "a"]]]))

/-- Parse result of `<div><span>hi</span></div>`, a minimal ordinary input. -/
def parsedPlainDiv : ParseResult :=
  .ok (some (0, [.elem 1 "div" "" Option.none
    [.elem 2 "span" "" Option.none [.text 10 "hi"]]]))

/-! ## Evaluation lemmas for the fixtures' style resolution -/

theorem resolve_contents_div :
    resolveDisplay (some "display:contents") "div" = .contents := by decide

theorem resolve_flex_div :
    resolveDisplay (some "display:flex") "div" = .flex := by decide

theorem resolve_plain_div : resolveDisplay Option.none "div" = .block := by
  decide

theorem resolve_plain_span : resolveDisplay Option.none "span" = .inline := by
  decide

theorem resolve_plain_li : resolveDisplay Option.none "li" = .listItem := by
  decide

/-! ## Claim theorems: direct consequences -/

/-- C7: the generator never raises: it is a total function of the parse
result, and a parser failure (caught by the `try`/`catch`) or a no-content
result yields an absent tree, the empty map and no source-tree writes. -/
theorem claim7_never_raises :
    (∀ e : Unit, generateBoxTree (.error e) = (Option.none, emptyElemMap, []))
    ∧ generateBoxTree (.ok Option.none) = (Option.none, emptyElemMap, []) :=
  ⟨fun _ => rfl, rfl⟩

/-- C9: generation is deterministic in the input HTML string: the result
(tree with identities, map, writes) does not depend on the module-global
counter's value before the call, because `generateBoxTree` re-initializes it
first; hence two calls on the same string agree. -/
theorem claim9_deterministic (parse : String → ParseResult) (g1 g2 : Nat)
    (html : String) :
    (generateFromHtml parse g1 html).1 = (generateFromHtml parse g2 html).1 := by
  unfold generateFromHtml generateBoxTreeG
  cases parse html with
  | error e => rfl
  | ok o => cases o with
    | none => rfl
    | some p => rfl

/-- The table and ruby display keywords named by C10. -/
def isTableOrRubyKeyword : DisplayType → Bool
  | .table | .inlineTable | .tableRow | .tableCell | .tableCaption
  | .tableHeaderGroup | .tableFooterGroup | .tableRowGroup
  | .tableColumn | .tableColumnGroup
  | .ruby | .rubyBase | .rubyText | .rubyBaseContainer
  | .rubyTextContainer => true
  | _ => false

/-- C10: an element with a table or ruby resolved keyword that is not a
direct child of a blockifying container (`parentBlockifies = false`) gets a
box of kind `block` — the default branch of `getBoxTypeFromDisplay`; there
are no table or ruby box kinds. -/
theorem claim10_table_ruby_default (eid : Nat) (tag cn : String)
    (st : Option String) (kids : List SNode) (d : DisplayType)
    (pd : Option DisplayType) (i : Nat) (ch : List BoxNode)
    (h : isTableOrRubyKeyword d = true) :
    (mkElemBox eid tag cn st kids d false pd i ch).boxType = .block := by
  cases d <;> cases pd <;>
    simp_all [mkElemBox, blockifiedBoxType, getBoxTypeFromDisplay,
      isTableOrRubyKeyword, BoxNode.boxType]

/-- Witness for C10 at `display:ruby` with no parent context. -/
theorem claim10_witness :
    isTableOrRubyKeyword DisplayType.ruby = true ∧
    (mkElemBox 1 "x" "" Option.none [] .ruby false Option.none 5 []).boxType
      = .block :=
  ⟨by decide,
   claim10_table_ruby_default 1 "x" "" Option.none [] .ruby Option.none 5 []
     (by decide)⟩

/-- C6: the resolved display keyword follows the priority order of
`getComputedDisplayType`: (a) the first `display:` declaration located by
the scan, with its value trimmed, lower-cased and looked up in the closed
keyword map, wins when recognized; an unrecognized value (and an absent or
empty declaration) falls through to (b) the lower-cased tag name in the
static default table, else (c) `block`. -/
theorem claim6_resolution_priority (st : Option String) (tag : String) :
    (∀ s v k, st = some s → findDisplayValue s.toList = some v →
        keywordOfString (normalizeValue v) = some k →
        resolveDisplay st tag = k)
    ∧ (∀ s v, st = some s → findDisplayValue s.toList = some v →
        keywordOfString (normalizeValue v) = Option.none →
        resolveDisplay st tag = (defaultDisplayFor (strToLower tag)).getD .block)
    ∧ (∀ s, st = some s → findDisplayValue s.toList = Option.none →
        resolveDisplay st tag = (defaultDisplayFor (strToLower tag)).getD .block)
    ∧ (st = Option.none →
        resolveDisplay st tag = (defaultDisplayFor (strToLower tag)).getD .block) := by
  refine ⟨?_, ?_, ?_, ?_⟩
  · rintro s v k rfl hf hk
    simp only [String.toList] at hf
    by_cases hs : s = ""
    · subst hs
      simp [show ("" : String).data = [] from rfl, findDisplayValue] at hf
    · simp [resolveDisplay, getDisplayFromStyle, String.toList, hs, hf, hk]
  · rintro s v rfl hf hk
    simp only [String.toList] at hf
    by_cases hs : s = ""
    · simp [resolveDisplay, getDisplayFromStyle, hs]
    · simp [resolveDisplay, getDisplayFromStyle, String.toList, hs, hf, hk]
  · rintro s rfl hf
    simp only [String.toList] at hf
    by_cases hs : s = ""
    · simp [resolveDisplay, getDisplayFromStyle, hs]
    · simp [resolveDisplay, getDisplayFromStyle, String.toList, hs, hf]
  · rintro rfl
    simp [resolveDisplay, getDisplayFromStyle]

/-- Witness for C6 at the style `display: inline-FLEX ;color:red` on a
`div`: clause (a) applies and yields `inline-flex`. -/
theorem claim6_witness :
    findDisplayValue (String.toList "display: inline-FLEX ;color:red")
        = some (String.toList " inline-FLEX ") ∧
    keywordOfString
        (normalizeValue (String.toList " inline-FLEX ")) = some .inlineFlex ∧
    resolveDisplay (some "display: inline-FLEX ;color:red") "div"
        = .inlineFlex :=
  ⟨by decide, by decide,
   (claim6_resolution_priority (some "display: inline-FLEX ;color:red")
       "div").1 "display: inline-FLEX ;color:red"
     (String.toList " inline-FLEX ") .inlineFlex rfl (by decide) (by decide)⟩

theorem ws_before : isWhitespaceOnly "Before" = false := by decide
theorem ws_x_upper : isWhitespaceOnly "X" = false := by decide
theorem ws_after : isWhitespaceOnly "After" = false := by decide
theorem ws_hi : isWhitespaceOnly "hi" = false := by decide
theorem ws_a : isWhitespaceOnly "a" = false := by decide
theorem ws_x : isWhitespaceOnly "x" = false := by decide
theorem lower_div : strToLower "div" = "div" := by decide
theorem lower_span : strToLower "span" = "span" := by decide
theorem lower_li : strToLower "li" = "li" := by decide

/-- C3 (Scenario B): on `<span>Before<div>X</div>After</span>` the root is
the synthetic `body` wrapper of kind `block` with exactly the three children
`anonymous-block { "Before" }`, `block` (the `div`, source element 2)
`{ "X" }`, `anonymous-block { "After" }`, and no box anywhere in the output
has the outer `span` (source element 1) as its source element. -/
theorem claim3_scenario_b :
    ((generateBoxTree parsedScenarioB).1.map (fun r =>
      (r.boxType, r.tagName,
       r.children.map (fun b =>
         (b.boxType, b.element,
          b.children.map (fun x => (x.boxType, x.textContent)))),
       (allBoxesN r).all (fun b => b.element != some 1))))
    = some (.block, some "body",
        [(.anonymousBlock, Option.none, [(.anonymousInline, some "Before")]),
         (.block, some 2, [(.anonymousInline, some "X")]),
         (.anonymousBlock, Option.none, [(.anonymousInline, some "After")])],
        true) := by
  simp [generateBoxTree, generateBoxTreeG, parsedScenarioB, bodyRootResult, bodyRoot,
    processChildrenFn, processLoop, splitGo, parentBlockifiesOf,
    parentIsBlockLevelOf, parentBFCOf, parentIsBlockContainerOf, closeCur,
    textAnonBox, hasBlockKids, mergeNested, wrapGo,
    mkElemBox, blockifiedBoxType, getBoxTypeFromDisplay, mkAnonBlock,
    mkAnonInline, generatesBox, isContents, isBlockLevel, isInlineLevel,
    establishesBlockFormattingContext, blockifiesChildren, isBlockContainer,
    isBlockishBox, isInlineForWrap, SNode.isElem, BoxNode.boxType,
    BoxNode.displayType, BoxNode.element, BoxNode.children, BoxNode.textContent,
    BoxNode.tagName, allBoxesN, allBoxesL, countElemKids, textContentN,
    textContentL, resolve_plain_span, resolve_plain_div, ws_before, ws_x_upper,
    ws_after, lower_div, lower_span]

/-- Counterexample to C2: on
`<div style="display:contents"><span>x</span></div>` the `display:contents`
element (source element 1) is the single top-level child of the body, and
the returned root box carries it as `sourceElement` with resolved display
`contents` — contradicting "E never appears as a sourceElement". -/
theorem claim2_counterexample :
    ((generateBoxTree parsedContentsRoot).1.map (fun r =>
        (r.element, r.displayType))) = some (some 1, some .contents)
    ∧ resolveDisplay (some "display:contents") "div" = .contents := by
  constructor
  · simp [generateBoxTree, generateBoxTreeG, parsedContentsRoot,
      bodyRootResult, bodyRoot, processChildrenFn, processLoop, splitGo, parentBlockifiesOf,
    parentIsBlockLevelOf, parentBFCOf, parentIsBlockContainerOf, closeCur,
    textAnonBox, hasBlockKids,
      mkElemBox, blockifiedBoxType, getBoxTypeFromDisplay, mkAnonInline,
      generatesBox, isContents, isBlockLevel, isInlineLevel,
      establishesBlockFormattingContext, blockifiesChildren, isBlockContainer,
      isBlockishBox, SNode.isElem, BoxNode.displayType, BoxNode.element,
      resolve_contents_div, resolve_plain_span, ws_x]
  · exact resolve_contents_div

/-- Counterexample to C4: on `<div style="display:flex"><li>a</li></div>`
the `li` resolves to `list-item` and is a direct child of a flex container,
yet its box kind is `flex-item`, not `list-item` — blockification overrides
the list-item keyword. -/
theorem claim4_counterexample :
    ((generateBoxTree parsedFlexListItem).1.map (fun r =>
      (r.boxType,
       r.children.map (fun b => (b.boxType, b.displayType)))))
    = some (.flexContainer, [(.flexItem, some .listItem)]) := by
  simp [generateBoxTree, generateBoxTreeG, parsedFlexListItem, bodyRootResult, bodyRoot,
    processChildrenFn, processLoop, splitGo, parentBlockifiesOf,
    parentIsBlockLevelOf, parentBFCOf, parentIsBlockContainerOf, closeCur,
    textAnonBox, hasBlockKids, mkElemBox,
    blockifiedBoxType, getBoxTypeFromDisplay, mkAnonInline, generatesBox,
    isContents, isBlockLevel, isInlineLevel, establishesBlockFormattingContext,
    blockifiesChildren, isBlockContainer, isBlockishBox, SNode.isElem,
    BoxNode.boxType, BoxNode.displayType, BoxNode.children,
    resolve_flex_div, resolve_plain_li, ws_a]

/-- C4 amended: for a direct child of a blockifying container (the parent's
display type is present and blockifying), `createBoxFromElement` assigns the
flex/grid item kind chosen by the parent's family for *every* resolved
keyword of the child — including `list-item`, which does not take
precedence. -/
theorem claim4_amended_blockification (eid : Nat) (tag cn : String)
    (st : Option String) (kids : List SNode) (d p : DisplayType) (i : Nat)
    (ch : List BoxNode) (hp : blockifiesChildren p = true) :
    (mkElemBox eid tag cn st kids d true (some p) i ch).boxType =
      (if p == .grid || p == .inlineGrid then .gridItem else .flexItem) := by
  cases hq : (p == .grid || p == .inlineGrid) <;>
    simp_all [mkElemBox, blockifiedBoxType, BoxNode.boxType]

/-- Witness for the amended C4: a `list-item` child of a `flex` parent gets
kind `flex-item`. -/
theorem claim4_amended_witness :
    blockifiesChildren DisplayType.flex = true ∧
    (mkElemBox 2 "li" "" Option.none [] .listItem true (some .flex) 7 []).boxType
      = .flexItem :=
  ⟨by decide,
   claim4_amended_blockification 2 "li" "" Option.none [] .listItem .flex 7 []
     (by decide)⟩

/-- Counterexample to C5: generation is not side-effect-free on the source
tree: already on `<div><span>hi</span></div>` the call performs two
`setAttribute('data-box-id', …)` writes, tagging the div (element 1) with
box 1 and the span (element 2) with box 2 (writes are
`(element identity, box id)` pairs). -/
theorem claim5_counterexample :
    (generateBoxTree parsedPlainDiv).2.2 = [(1, 1), (2, 2)]
    ∧ (generateBoxTree parsedPlainDiv).2.2 ≠ [] := by
  have h : (generateBoxTree parsedPlainDiv).2.2 = [(1, 1), (2, 2)] := by
    simp [generateBoxTree, generateBoxTreeG, parsedPlainDiv, bodyRootResult, bodyRoot,
      processChildrenFn, processLoop, splitGo, parentBlockifiesOf,
    parentIsBlockLevelOf, parentBFCOf, parentIsBlockContainerOf, closeCur,
    textAnonBox, hasBlockKids, mkElemBox,
      blockifiedBoxType, getBoxTypeFromDisplay, mkAnonInline, generatesBox,
      isContents, isBlockLevel, isInlineLevel,
      establishesBlockFormattingContext, blockifiesChildren, isBlockContainer,
      isBlockishBox, SNode.isElem, bemGo, bemGoList, addE2B, appendB2E,
      emptyElemMap, resolve_plain_div, resolve_plain_span, ws_hi]
  refine ⟨h, ?_⟩
  rw [h]
  simp

/-! ## Kind classes and the containment predicate (Invariant I3 / C1) -/

/-- "Block-level-or-anonymous-block" box kinds per Invariant I3. -/
def kindA (bt : BoxType) : Bool :=
  bt == .block || bt == .flexContainer || bt == .gridContainer ||
  bt == .listItem || bt == .anonymousBlock

/-- "Inline-level-or-anonymous-inline" box kinds per Invariant I3. -/
def kindB (bt : BoxType) : Bool :=
  bt == .inline || bt == .inlineBlock || bt == .anonymousInline

/-- A homogeneous child list: all block-level-or-anonymous-block, or all
inline-level-or-anonymous-inline. -/
def HomogAB (bs : List BoxNode) : Prop :=
  (∀ b ∈ bs, kindA b.boxType = true) ∨ (∀ b ∈ bs, kindB b.boxType = true)

/-- A well-formed output box: its display type is neither `none` nor
`contents` (Invariant I4), and if it is a non-blockifying block container
its children are homogeneous (Invariant I3). -/
def GoodBox (b : BoxNode) : Prop :=
  (b.displayType ≠ some DisplayType.none ∧
   b.displayType ≠ some DisplayType.contents) ∧
  (∀ d, b.displayType = some d → isBlockContainer d = true →
    HomogAB b.children)

/-- Every box of the forest, descendants included, is well formed. -/
def AllGood (bs : List BoxNode) : Prop := ∀ x ∈ allBoxesL bs, GoodBox x

theorem allBoxesL_append (as bs : List BoxNode) :
    allBoxesL (as ++ bs) = allBoxesL as ++ allBoxesL bs := by
  induction as with
  | nil => simp [allBoxesL]
  | cons a as ih => simp [allBoxesL, ih]

theorem allBoxesN_eq (b : BoxNode) :
    allBoxesN b = b :: allBoxesL b.children := by
  cases b; simp [allBoxesN, BoxNode.children]

theorem allBoxesL_cons (b : BoxNode) (bs : List BoxNode) :
    allBoxesL (b :: bs) = allBoxesN b ++ allBoxesL bs := by
  simp [allBoxesL]

theorem AllGood_append {as bs : List BoxNode} (ha : AllGood as)
    (hb : AllGood bs) : AllGood (as ++ bs) := by
  intro x hx
  rw [allBoxesL_append, List.mem_append] at hx
  exact hx.elim (ha x) (hb x)

theorem AllGood_cons {b : BoxNode} {bs : List BoxNode}
    (hb : ∀ x ∈ allBoxesN b, GoodBox x) (hs : AllGood bs) :
    AllGood (b :: bs) := by
  intro x hx
  rw [allBoxesL_cons, List.mem_append] at hx
  exact hx.elim (hb x) (hs x)

theorem AllGood_nil : AllGood [] := by intro x hx; simp [allBoxesL] at hx

theorem AllGood_singleton {b : BoxNode}
    (hb : ∀ x ∈ allBoxesN b, GoodBox x) : AllGood [b] :=
  AllGood_cons hb AllGood_nil

/-- An anonymous box (display type absent) is well formed on its own. -/
theorem GoodBox_of_noDisplay {b : BoxNode}
    (h : b.displayType = Option.none) : GoodBox b := by
  refine ⟨⟨?_, ?_⟩, ?_⟩ <;> simp [h]

theorem mem_allBoxesN {b x : BoxNode} :
    x ∈ allBoxesN b ↔ x = b ∨ x ∈ allBoxesL b.children := by
  rw [allBoxesN_eq]; exact List.mem_cons

theorem goodN_anonBlock {i : Nat} {xs : List BoxNode}
    (hxs : AllGood xs) : ∀ x ∈ allBoxesN (mkAnonBlock i xs), GoodBox x := by
  intro x hx
  rcases mem_allBoxesN.mp hx with rfl | hx
  · exact GoodBox_of_noDisplay rfl
  · exact hxs x hx

theorem goodN_anonInline {i : Nat} {s : String} {t : Nat} :
    ∀ x ∈ allBoxesN (mkAnonInline i s t), GoodBox x := by
  intro x hx
  rcases mem_allBoxesN.mp hx with rfl | hx
  · exact GoodBox_of_noDisplay rfl
  · simp [mkAnonInline, BoxNode.children, allBoxesL] at hx

theorem goodN_anonFlexItem {i : Nat} {s : String} {t : Nat} :
    ∀ x ∈ allBoxesN (mkAnonFlexItem i s t), GoodBox x := by
  intro x hx
  rcases mem_allBoxesN.mp hx with rfl | hx
  · exact GoodBox_of_noDisplay rfl
  · simp [mkAnonFlexItem, BoxNode.children, allBoxesL] at hx

theorem goodN_anonGridItem {i : Nat} {s : String} {t : Nat} :
    ∀ x ∈ allBoxesN (mkAnonGridItem i s t), GoodBox x := by
  intro x hx
  rcases mem_allBoxesN.mp hx with rfl | hx
  · exact GoodBox_of_noDisplay rfl
  · simp [mkAnonGridItem, BoxNode.children, allBoxesL] at hx

/-- Box kinds reachable from `getBoxTypeFromDisplay` are always in one of
the two containment classes. -/
theorem getBoxType_kindAB (d : DisplayType) :
    (kindA (getBoxTypeFromDisplay d (d == .listItem)) ||
     kindB (getBoxTypeFromDisplay d (d == .listItem))) = true := by
  cases d <;> decide

/-- A block-level display type yields a class-A kind (used for split-off
block boxes, whose parent display argument is `null`). -/
theorem getBoxType_kindA_of_blockLevel {d : DisplayType}
    (h : isBlockLevel d = true) :
    kindA (getBoxTypeFromDisplay d (d == .listItem)) = true := by
  cases d <;> first | rfl | exact absurd h (by decide)

/-- `kindB` is exactly the wrap pass's inline test. -/
theorem isInlineForWrap_eq_kindB (b : BoxNode) :
    isInlineForWrap b = kindB b.boxType := rfl

/-- A box in neither wrap class of the post-pass but inside the two
containment classes is class A. -/
theorem kindA_of_not_inline {bt : BoxType}
    (hab : (kindA bt || kindB bt) = true)
    (hni : (bt == .inline || bt == .inlineBlock || bt == .anonymousInline)
      = false) : kindA bt = true := by
  cases bt <;> simp_all [kindA, kindB]

/-- All boxes emitted by the wrap pass are class A, provided the input boxes
are all in one of the two classes. -/
theorem wrapGo_kindA :
    ∀ (bs : List BoxNode) (cur : Option (Nat × List BoxNode)) (c : Nat),
      (∀ b ∈ bs, (kindA b.boxType || kindB b.boxType) = true) →
      ∀ b ∈ (wrapGo bs cur c).1, kindA b.boxType = true := by
  intro bs
  induction bs with
  | nil =>
    rintro (_ | ⟨i, xs⟩) c _ b hb
    · simp [wrapGo] at hb
    · simp only [wrapGo, List.mem_singleton] at hb
      subst hb; rfl
  | cons a as ih =>
    intro cur c hab b hb
    have hab' : ∀ x ∈ as, (kindA x.boxType || kindB x.boxType) = true :=
      fun x hx => hab x (List.mem_cons_of_mem a hx)
    have haA : isInlineForWrap a = false → kindA a.boxType = true := by
      intro hni
      refine kindA_of_not_inline (hab a (List.mem_cons_self a as)) ?_
      rw [isInlineForWrap_eq_kindB] at hni
      simpa [kindB] using hni
    cases cur with
    | none =>
      by_cases hia : isInlineForWrap a
      · rw [show wrapGo (a :: as) Option.none c
            = wrapGo as (some (c + 1, [a])) (c + 1) by
          simp [wrapGo, hia]] at hb
        exact ih _ _ hab' b hb
      · rw [show wrapGo (a :: as) Option.none c
            = (a :: (wrapGo as Option.none c).1,
               (wrapGo as Option.none c).2) by
          simp [wrapGo, hia]] at hb
        rcases List.mem_cons.mp hb with rfl | hb
        · exact haA (by simpa using hia)
        · exact ih _ _ hab' b hb
    | some p =>
      obtain ⟨i, xs⟩ := p
      by_cases hia : isInlineForWrap a
      · rw [show wrapGo (a :: as) (some (i, xs)) c
            = wrapGo as (some (i, xs ++ [a])) c by
          simp [wrapGo, hia]] at hb
        exact ih _ _ hab' b hb
      · rw [show wrapGo (a :: as) (some (i, xs)) c
            = (mkAnonBlock i xs :: a :: (wrapGo as Option.none c).1,
               (wrapGo as Option.none c).2) by
          simp [wrapGo, hia]] at hb
        rcases List.mem_cons.mp hb with rfl | hb
        · rfl
        · rcases List.mem_cons.mp hb with rfl | hb
          · exact haA (by simpa using hia)
          · exact ih _ _ hab' b hb

/-- The members of the open run of the wrap pass. -/
def curMembers : Option (Nat × List BoxNode) → List BoxNode
  | Option.none => []
  | some (_, xs) => xs

/-- Every box reachable from the wrap pass's output is reachable from its
input or its open run, or is one of the freshly created anonymous blocks. -/
theorem wrapGo_mem :
    ∀ (bs : List BoxNode) (cur : Option (Nat × List BoxNode)) (c : Nat)
      (x : BoxNode), x ∈ allBoxesL (wrapGo bs cur c).1 →
      x ∈ allBoxesL bs ∨ x ∈ allBoxesL (curMembers cur) ∨
        x.displayType = Option.none := by
  intro bs
  induction bs with
  | nil =>
    rintro (_ | ⟨i, xs⟩) c x hx
    · simp [wrapGo, allBoxesL] at hx
    · simp only [wrapGo] at hx
      rw [allBoxesL_cons, List.mem_append] at hx
      rcases hx with hx | hx
      · rcases mem_allBoxesN.mp hx with rfl | hx
        · exact Or.inr (Or.inr rfl)
        · exact Or.inr (Or.inl hx)
      · simp [allBoxesL] at hx
  | cons a as ih =>
    intro cur c x hx
    cases cur with
    | none =>
      by_cases hia : isInlineForWrap a
      · rw [show wrapGo (a :: as) Option.none c
            = wrapGo as (some (c + 1, [a])) (c + 1) by
          simp [wrapGo, hia]] at hx
        rcases ih _ _ x hx with h | h | h
        · exact Or.inl (by rw [allBoxesL_cons, List.mem_append]; exact Or.inr h)
        · have h' : x ∈ allBoxesN a := by
            simpa [curMembers, allBoxesL] using h
          exact Or.inl (by rw [allBoxesL_cons, List.mem_append]; exact Or.inl h')
        · exact Or.inr (Or.inr h)
      · rw [show wrapGo (a :: as) Option.none c
            = (a :: (wrapGo as Option.none c).1,
               (wrapGo as Option.none c).2) by
          simp [wrapGo, hia]] at hx
        rw [allBoxesL_cons, List.mem_append] at hx
        rcases hx with hx | hx
        · exact Or.inl (by rw [allBoxesL_cons, List.mem_append]; exact Or.inl hx)
        · rcases ih _ _ x hx with h | h | h
          · exact Or.inl
              (by rw [allBoxesL_cons, List.mem_append]; exact Or.inr h)
          · simp [curMembers, allBoxesL] at h
          · exact Or.inr (Or.inr h)
    | some p =>
      obtain ⟨i, xs⟩ := p
      by_cases hia : isInlineForWrap a
      · rw [show wrapGo (a :: as) (some (i, xs)) c
            = wrapGo as (some (i, xs ++ [a])) c by
          simp [wrapGo, hia]] at hx
        rcases ih _ _ x hx with h | h | h
        · exact Or.inl (by rw [allBoxesL_cons, List.mem_append]; exact Or.inr h)
        · simp only [curMembers] at h
          rw [allBoxesL_append, List.mem_append] at h
          rcases h with h | h
          · exact Or.inr (Or.inl h)
          · have h' : x ∈ allBoxesN a := by simpa [allBoxesL] using h
            exact Or.inl
              (by rw [allBoxesL_cons, List.mem_append]; exact Or.inl h')
        · exact Or.inr (Or.inr h)
      · rw [show wrapGo (a :: as) (some (i, xs)) c
            = (mkAnonBlock i xs :: a :: (wrapGo as Option.none c).1,
               (wrapGo as Option.none c).2) by
          simp [wrapGo, hia]] at hx
        rw [allBoxesL_cons, List.mem_append] at hx
        rcases hx with hx | hx
        · rcases mem_allBoxesN.mp hx with rfl | hx
          · exact Or.inr (Or.inr rfl)
          · exact Or.inr (Or.inl hx)
        · rw [allBoxesL_cons, List.mem_append] at hx
          rcases hx with hx | hx
          · exact Or.inl
              (by rw [allBoxesL_cons, List.mem_append]; exact Or.inl hx)
          · rcases ih _ _ x hx with h | h | h
            · exact Or.inl
                (by rw [allBoxesL_cons, List.mem_append]; exact Or.inr h)
            · simp [curMembers, allBoxesL] at h
            · exact Or.inr (Or.inr h)

theorem closeCur_kindA (cur : List BoxNode) (c : Nat) :
    ∀ b ∈ (closeCur cur c).1, kindA b.boxType = true := by
  cases cur <;> simp [closeCur, mkAnonBlock, BoxNode.boxType, kindA]

theorem closeCur_mem {cur : List BoxNode} {c : Nat} {x : BoxNode}
    (hx : x ∈ allBoxesL (closeCur cur c).1) :
    x ∈ allBoxesL cur ∨ x.displayType = Option.none := by
  cases cur with
  | nil => simp [closeCur, allBoxesL] at hx
  | cons y ys =>
    simp only [closeCur] at hx
    rw [allBoxesL_cons] at hx
    rcases List.mem_append.mp hx with hx | hx
    · rcases mem_allBoxesN.mp hx with rfl | hx
      · exact Or.inr rfl
      · exact Or.inl hx
    · simp [allBoxesL] at hx

theorem closeCur_good {cur : List BoxNode} {c : Nat} (h : AllGood cur) :
    AllGood (closeCur cur c).1 := by
  intro x hx
  rcases closeCur_mem hx with hx | hx
  · exact h x hx
  · exact GoodBox_of_noDisplay hx

/-- All boxes emitted by the nested-split merge are class A, given class-A
nested boxes. -/
theorem mergeNested_kindA :
    ∀ (bs cur : List BoxNode) (c : Nat),
      (∀ b ∈ bs, kindA b.boxType = true) →
      ∀ b ∈ (mergeNested bs cur c).1, kindA b.boxType = true := by
  intro bs
  induction bs with
  | nil => intro cur c _ b hb; simp [mergeNested] at hb
  | cons a as ih =>
    intro cur c hab b hb
    have hab' : ∀ x ∈ as, kindA x.boxType = true :=
      fun x hx => hab x (List.mem_cons_of_mem a hx)
    by_cases ha : a.boxType == BoxType.anonymousBlock
    · rw [show mergeNested (a :: as) cur c
          = mergeNested as (cur ++ a.children) c by
        simp [mergeNested, ha]] at hb
      exact ih _ _ hab' b hb
    · rw [show mergeNested (a :: as) cur c
          = ((closeCur cur c).1 ++ a ::
              (mergeNested as [] (closeCur cur c).2).1,
             (mergeNested as [] (closeCur cur c).2).2.1,
             (mergeNested as [] (closeCur cur c).2).2.2) by
        simp [mergeNested, ha]] at hb
      rcases List.mem_append.mp hb with hb | hb
      · exact closeCur_kindA cur c b hb
      · rcases List.mem_cons.mp hb with rfl | hb
        · exact hab b (List.mem_cons_self b as)
        · exact ih _ _ hab' b hb

/-- Boxes reachable from the merge's output or its new current run come from
the nested boxes, the old run, or are fresh anonymous blocks. -/
theorem mergeNested_mem :
    ∀ (bs cur : List BoxNode) (c : Nat) (x : BoxNode),
      (x ∈ allBoxesL (mergeNested bs cur c).1 ∨
       x ∈ allBoxesL (mergeNested bs cur c).2.1) →
      x ∈ allBoxesL bs ∨ x ∈ allBoxesL cur ∨ x.displayType = Option.none := by
  intro bs
  induction bs with
  | nil =>
    intro cur c x hx
    rcases hx with hx | hx
    · simp [mergeNested, allBoxesL] at hx
    · exact Or.inr (Or.inl (by simpa [mergeNested] using hx))
  | cons a as ih =>
    intro cur c x hx
    by_cases ha : a.boxType == BoxType.anonymousBlock
    · rw [show mergeNested (a :: as) cur c
          = mergeNested as (cur ++ a.children) c by
        simp [mergeNested, ha]] at hx
      rcases ih _ _ x hx with h | h | h
      · exact Or.inl (by rw [allBoxesL_cons, List.mem_append]; exact Or.inr h)
      · rw [allBoxesL_append, List.mem_append] at h
        rcases h with h | h
        · exact Or.inr (Or.inl h)
        · refine Or.inl ?_
          rw [allBoxesL_cons, List.mem_append]
          exact Or.inl (mem_allBoxesN.mpr (Or.inr h))
      · exact Or.inr (Or.inr h)
    · rw [show mergeNested (a :: as) cur c
          = ((closeCur cur c).1 ++ a ::
              (mergeNested as [] (closeCur cur c).2).1,
             (mergeNested as [] (closeCur cur c).2).2.1,
             (mergeNested as [] (closeCur cur c).2).2.2) by
        simp [mergeNested, ha]] at hx
      have hrec : x ∈ allBoxesL (mergeNested as [] (closeCur cur c).2).1 ∨
          x ∈ allBoxesL (mergeNested as [] (closeCur cur c).2).2.1 →
          x ∈ allBoxesL (a :: as) ∨ x ∈ allBoxesL cur ∨
            x.displayType = Option.none := by
        intro h
        rcases ih _ _ x h with h | h | h
        · exact Or.inl (by rw [allBoxesL_cons, List.mem_append]; exact Or.inr h)
        · simp [allBoxesL] at h
        · exact Or.inr (Or.inr h)
      rcases hx with hx | hx
      · rw [allBoxesL_append, List.mem_append] at hx
        rcases hx with hx | hx
        · rcases closeCur_mem hx with h | h
          · exact Or.inr (Or.inl h)
          · exact Or.inr (Or.inr h)
        · rw [allBoxesL_cons, List.mem_append] at hx
          rcases hx with hx | hx
          · exact Or.inl
              (by rw [allBoxesL_cons, List.mem_append]; exact Or.inl hx)
          · exact hrec (Or.inl hx)
      · exact hrec (Or.inr hx)

/-! ## Branch equations of the recursive functions -/

theorem pcf_def (nodes : List SNode) (pd : Option DisplayType)
    (pbt : Option BoxType) (c : Nat) :
    processChildrenFn nodes pd pbt c =
      if parentIsBlockContainerOf pd && !parentBlockifiesOf pd then
        if (processLoop nodes pd pbt c).1.any isBlockishBox then
          wrapGo (processLoop nodes pd pbt c).1 Option.none
            (processLoop nodes pd pbt c).2
        else processLoop nodes pd pbt c
      else processLoop nodes pd pbt c := by
  rw [processChildrenFn]

theorem pl_nil (pd : Option DisplayType) (pbt : Option BoxType) (c : Nat) :
    processLoop [] pd pbt c = ([], c) := by
  rw [processLoop]

theorem pl_text_ws {s : String} (tid : Nat) (rest : List SNode)
    (pd : Option DisplayType) (pbt : Option BoxType) (c : Nat)
    (h : isWhitespaceOnly s = true) :
    processLoop (.text tid s :: rest) pd pbt c = processLoop rest pd pbt c := by
  rw [processLoop]
  cases hb : parentIsBlockLevelOf pd <;> simp [h, hb]

theorem pl_text_box {s : String} (tid : Nat) (rest : List SNode)
    (pd : Option DisplayType) (pbt : Option BoxType) (c : Nat)
    (h : isWhitespaceOnly s = false) :
    processLoop (.text tid s :: rest) pd pbt c =
      (textAnonBox pd s tid (c + 1) :: (processLoop rest pd pbt (c + 1)).1,
       (processLoop rest pd pbt (c + 1)).2) := by
  rw [processLoop]
  simp [h]

theorem pl_elem_none {st : Option String} {tag : String} (eid : Nat)
    (cn : String) (kids rest : List SNode) (pd : Option DisplayType)
    (pbt : Option BoxType) (c : Nat)
    (h : generatesBox (resolveDisplay st tag) = false) :
    processLoop (.elem eid tag cn st kids :: rest) pd pbt c =
      processLoop rest pd pbt c := by
  rw [processLoop]
  simp [h]

theorem pl_elem_contents {st : Option String} {tag : String} (eid : Nat)
    (cn : String) (kids rest : List SNode) (pd : Option DisplayType)
    (pbt : Option BoxType) (c : Nat)
    (h1 : generatesBox (resolveDisplay st tag) = true)
    (h2 : isContents (resolveDisplay st tag) = true) :
    processLoop (.elem eid tag cn st kids :: rest) pd pbt c =
      ((processChildrenFn kids pd pbt c).1 ++
        (processLoop rest pd pbt (processChildrenFn kids pd pbt c).2).1,
       (processLoop rest pd pbt (processChildrenFn kids pd pbt c).2).2) := by
  rw [processLoop]
  simp [h1, h2]

theorem pl_elem_split {st : Option String} {tag : String} (eid : Nat)
    (cn : String) (kids rest : List SNode) (pd : Option DisplayType)
    (pbt : Option BoxType) (c : Nat)
    (h1 : generatesBox (resolveDisplay st tag) = true)
    (h2 : isContents (resolveDisplay st tag) = false)
    (h3 : (isInlineLevel (resolveDisplay st tag) && !(parentBFCOf pd) &&
        hasBlockKids kids &&
        !(establishesBlockFormattingContext (resolveDisplay st tag))) = true) :
    processLoop (.elem eid tag cn st kids :: rest) pd pbt c =
      ((splitGo kids (resolveDisplay st tag) (parentBlockifiesOf pd) [] c).1 ++
        (processLoop rest pd pbt
          (splitGo kids (resolveDisplay st tag)
            (parentBlockifiesOf pd) [] c).2).1,
       (processLoop rest pd pbt
          (splitGo kids (resolveDisplay st tag)
            (parentBlockifiesOf pd) [] c).2).2) := by
  rw [processLoop]
  simp only [h1, h2, h3]
  simp

theorem pl_elem_normal {st : Option String} {tag : String} (eid : Nat)
    (cn : String) (kids rest : List SNode) (pd : Option DisplayType)
    (pbt : Option BoxType) (c : Nat)
    (h1 : generatesBox (resolveDisplay st tag) = true)
    (h2 : isContents (resolveDisplay st tag) = false)
    (h3 : (isInlineLevel (resolveDisplay st tag) && !(parentBFCOf pd) &&
        hasBlockKids kids &&
        !(establishesBlockFormattingContext (resolveDisplay st tag))) = false) :
    processLoop (.elem eid tag cn st kids :: rest) pd pbt c =
      (mkElemBox eid tag cn st kids (resolveDisplay st tag)
          (parentBlockifiesOf pd) pd (c + 1)
          (processChildrenFn kids (resolveDisplay st tag)
            (some (blockifiedBoxType (resolveDisplay st tag)
              (parentBlockifiesOf pd) pd)) (c + 1)).1 ::
        (processLoop rest pd pbt
          (processChildrenFn kids (resolveDisplay st tag)
            (some (blockifiedBoxType (resolveDisplay st tag)
              (parentBlockifiesOf pd) pd)) (c + 1)).2).1,
       (processLoop rest pd pbt
          (processChildrenFn kids (resolveDisplay st tag)
            (some (blockifiedBoxType (resolveDisplay st tag)
              (parentBlockifiesOf pd) pd)) (c + 1)).2).2) := by
  rw [processLoop]
  simp only [h1, h2, h3]
  simp

theorem sg_nil (inlineD : DisplayType) (pb : Bool) (cur : List BoxNode)
    (c : Nat) : splitGo [] inlineD pb cur c = closeCur cur c := by
  rw [splitGo]

theorem sg_text_ws {s : String} (tid : Nat) (rest : List SNode)
    (inlineD : DisplayType) (pb : Bool) (cur : List BoxNode) (c : Nat)
    (h : isWhitespaceOnly s = true) :
    splitGo (.text tid s :: rest) inlineD pb cur c =
      splitGo rest inlineD pb cur c := by
  rw [splitGo]
  simp [h]

theorem sg_text_box {s : String} (tid : Nat) (rest : List SNode)
    (inlineD : DisplayType) (pb : Bool) (cur : List BoxNode) (c : Nat)
    (h : isWhitespaceOnly s = false) :
    splitGo (.text tid s :: rest) inlineD pb cur c =
      splitGo rest inlineD pb (cur ++ [mkAnonInline (c + 1) s tid]) (c + 1) := by
  rw [splitGo]
  simp [h]

theorem sg_elem_none {st : Option String} {tag : String} (eid : Nat)
    (cn : String) (kids rest : List SNode) (inlineD : DisplayType) (pb : Bool)
    (cur : List BoxNode) (c : Nat)
    (h : generatesBox (resolveDisplay st tag) = false) :
    splitGo (.elem eid tag cn st kids :: rest) inlineD pb cur c =
      splitGo rest inlineD pb cur c := by
  rw [splitGo]
  simp [h]

theorem sg_elem_contents {st : Option String} {tag : String} (eid : Nat)
    (cn : String) (kids rest : List SNode) (inlineD : DisplayType) (pb : Bool)
    (cur : List BoxNode) (c : Nat)
    (h1 : generatesBox (resolveDisplay st tag) = true)
    (h2 : isContents (resolveDisplay st tag) = true) :
    splitGo (.elem eid tag cn st kids :: rest) inlineD pb cur c =
      splitGo rest inlineD pb
        (cur ++ (processChildrenFn kids inlineD Option.none c).1)
        (processChildrenFn kids inlineD Option.none c).2 := by
  rw [splitGo]
  simp [h1, h2]

theorem sg_elem_block {st : Option String} {tag : String} (eid : Nat)
    (cn : String) (kids rest : List SNode) (inlineD : DisplayType) (pb : Bool)
    (cur : List BoxNode) (c : Nat)
    (h1 : generatesBox (resolveDisplay st tag) = true)
    (h2 : isContents (resolveDisplay st tag) = false)
    (h3 : isBlockLevel (resolveDisplay st tag) = true) :
    splitGo (.elem eid tag cn st kids :: rest) inlineD pb cur c =
      ((closeCur cur c).1 ++
        mkElemBox eid tag cn st kids (resolveDisplay st tag) pb Option.none
          ((closeCur cur c).2 + 1)
          (processChildrenFn kids (resolveDisplay st tag)
            (some (blockifiedBoxType (resolveDisplay st tag) pb Option.none))
            ((closeCur cur c).2 + 1)).1 ::
        (splitGo rest inlineD pb []
          (processChildrenFn kids (resolveDisplay st tag)
            (some (blockifiedBoxType (resolveDisplay st tag) pb Option.none))
            ((closeCur cur c).2 + 1)).2).1,
       (splitGo rest inlineD pb []
          (processChildrenFn kids (resolveDisplay st tag)
            (some (blockifiedBoxType (resolveDisplay st tag) pb Option.none))
            ((closeCur cur c).2 + 1)).2).2) := by
  rw [splitGo]
  simp [h1, h2, h3]

theorem sg_elem_nested {st : Option String} {tag : String} (eid : Nat)
    (cn : String) (kids rest : List SNode) (inlineD : DisplayType) (pb : Bool)
    (cur : List BoxNode) (c : Nat)
    (h1 : generatesBox (resolveDisplay st tag) = true)
    (h2 : isContents (resolveDisplay st tag) = false)
    (h3 : isBlockLevel (resolveDisplay st tag) = false)
    (h4 : (!(establishesBlockFormattingContext (resolveDisplay st tag)) &&
        hasBlockKids kids) = true) :
    splitGo (.elem eid tag cn st kids :: rest) inlineD pb cur c =
      ((mergeNested (splitGo kids (resolveDisplay st tag) pb [] c).1 cur
          (splitGo kids (resolveDisplay st tag) pb [] c).2).1 ++
        (splitGo rest inlineD pb
          (mergeNested (splitGo kids (resolveDisplay st tag) pb [] c).1 cur
            (splitGo kids (resolveDisplay st tag) pb [] c).2).2.1
          (mergeNested (splitGo kids (resolveDisplay st tag) pb [] c).1 cur
            (splitGo kids (resolveDisplay st tag) pb [] c).2).2.2).1,
       (splitGo rest inlineD pb
          (mergeNested (splitGo kids (resolveDisplay st tag) pb [] c).1 cur
            (splitGo kids (resolveDisplay st tag) pb [] c).2).2.1
          (mergeNested (splitGo kids (resolveDisplay st tag) pb [] c).1 cur
            (splitGo kids (resolveDisplay st tag) pb [] c).2).2.2).2) := by
  rw [splitGo]
  simp [h1, h2, h3, h4]

theorem sg_elem_inline {st : Option String} {tag : String} (eid : Nat)
    (cn : String) (kids rest : List SNode) (inlineD : DisplayType) (pb : Bool)
    (cur : List BoxNode) (c : Nat)
    (h1 : generatesBox (resolveDisplay st tag) = true)
    (h2 : isContents (resolveDisplay st tag) = false)
    (h3 : isBlockLevel (resolveDisplay st tag) = false)
    (h4 : (!(establishesBlockFormattingContext (resolveDisplay st tag)) &&
        hasBlockKids kids) = false) :
    splitGo (.elem eid tag cn st kids :: rest) inlineD pb cur c =
      splitGo rest inlineD pb
        (cur ++ [mkElemBox eid tag cn st kids (resolveDisplay st tag) pb
          Option.none (c + 1)
          (processChildrenFn kids (resolveDisplay st tag)
            (some (blockifiedBoxType (resolveDisplay st tag) pb Option.none))
            (c + 1)).1])
        (processChildrenFn kids (resolveDisplay st tag)
          (some (blockifiedBoxType (resolveDisplay st tag) pb Option.none))
          (c + 1)).2 := by
  rw [splitGo]
  simp [h1, h2, h3, h4]

/-! ## The main structural induction: Invariants I3 and I4 -/

theorem mkElemBox_boxType (eid : Nat) (tag cn : String) (st : Option String)
    (kids : List SNode) (d : DisplayType) (pb : Bool)
    (pd : Option DisplayType) (i : Nat) (ch : List BoxNode) :
    (mkElemBox eid tag cn st kids d pb pd i ch).boxType
      = blockifiedBoxType d pb pd := rfl

theorem mkElemBox_displayType (eid : Nat) (tag cn : String)
    (st : Option String) (kids : List SNode) (d : DisplayType) (pb : Bool)
    (pd : Option DisplayType) (i : Nat) (ch : List BoxNode) :
    (mkElemBox eid tag cn st kids d pb pd i ch).displayType = some d := rfl

theorem mkElemBox_children (eid : Nat) (tag cn : String) (st : Option String)
    (kids : List SNode) (d : DisplayType) (pb : Bool)
    (pd : Option DisplayType) (i : Nat) (ch : List BoxNode) :
    (mkElemBox eid tag cn st kids d pb pd i ch).children = ch := rfl

theorem bbt_pd_none (d : DisplayType) (pb : Bool) :
    blockifiedBoxType d pb Option.none
      = getBoxTypeFromDisplay d (d == .listItem) := rfl

theorem bbt_pb_false (d : DisplayType) (pd : Option DisplayType) :
    blockifiedBoxType d false pd
      = getBoxTypeFromDisplay d (d == .listItem) := by
  cases pd <;> simp [blockifiedBoxType]

theorem container_not_blockifies {pd : Option DisplayType}
    (h : parentIsBlockContainerOf pd = true) :
    parentBlockifiesOf pd = false := by
  cases pd with
  | none => rfl
  | some d =>
    simp only [parentIsBlockContainerOf] at h
    simp only [parentBlockifiesOf]
    revert h
    cases d <;> decide

theorem generatesBox_ne_none {d : DisplayType} (h : generatesBox d = true) :
    d ≠ .none := by
  intro hd; subst hd; exact absurd h (by decide)

theorem isContents_false_ne {d : DisplayType} (h : isContents d = false) :
    d ≠ .contents := by
  intro hd; subst hd; exact absurd h (by decide)

theorem blockLevel_ne {d : DisplayType} (h : isBlockLevel d = true) :
    d ≠ .none ∧ d ≠ .contents := by
  constructor <;> intro hd <;> subst hd <;> exact absurd h (by decide)

theorem isBlockishBox_eq_kindA (b : BoxNode) :
    isBlockishBox b = kindA b.boxType := rfl

theorem goodN_textAnonBox (pd : Option DisplayType) (s : String) (tid i : Nat) :
    ∀ x ∈ allBoxesN (textAnonBox pd s tid i), GoodBox x := by
  cases pd with
  | none => exact goodN_anonInline
  | some p =>
    by_cases hb : blockifiesChildren p
    · by_cases hg : (p == .grid || p == .inlineGrid)
      · simpa [textAnonBox, hb, hg] using goodN_anonGridItem
      · simpa [textAnonBox, hb, hg] using goodN_anonFlexItem
    · simpa [textAnonBox, hb] using goodN_anonInline

theorem textAnonBox_kindB {pd : Option DisplayType} (s : String) (tid i : Nat)
    (h : parentBlockifiesOf pd = false) :
    kindB (textAnonBox pd s tid i).boxType = true := by
  cases pd with
  | none => rfl
  | some p =>
    simp only [parentBlockifiesOf] at h
    simp [textAnonBox, h, mkAnonInline, BoxNode.boxType, kindB]

/-- The simultaneous induction establishing, for every recursive entry point
of the generator: all produced boxes (recursively) satisfy Invariant I4
(no `none`/`contents` display) and Invariant I3 (homogeneous children of
non-blockifying block containers); produced top-level kinds are in the two
containment classes under a non-blockifying parent; the post-pass output of
`processChildren` for a block-container parent is homogeneous; and
everything the splitter emits is block-level-or-anonymous-block. -/
theorem generation_good :
    ∀ n : Nat,
    (∀ nodes pd pbt c, sizeL nodes ≤ n →
      AllGood (processLoop nodes pd pbt c).1 ∧
      (parentBlockifiesOf pd = false →
        ∀ b ∈ (processLoop nodes pd pbt c).1,
          (kindA b.boxType || kindB b.boxType) = true)) ∧
    (∀ nodes pd pbt c, sizeL nodes ≤ n →
      AllGood (processChildrenFn nodes pd pbt c).1 ∧
      (parentBlockifiesOf pd = false →
        ∀ b ∈ (processChildrenFn nodes pd pbt c).1,
          (kindA b.boxType || kindB b.boxType) = true) ∧
      (parentIsBlockContainerOf pd = true →
        HomogAB (processChildrenFn nodes pd pbt c).1)) ∧
    (∀ nodes inlineD pb cur c, sizeL nodes ≤ n → AllGood cur →
      AllGood (splitGo nodes inlineD pb cur c).1 ∧
      ∀ b ∈ (splitGo nodes inlineD pb cur c).1, kindA b.boxType = true) := by
  intro n
  induction n using Nat.strong_induction_on with
  | _ n ih =>
  -- the loop statement at the current bound
  have hloop : ∀ nodes pd pbt c, sizeL nodes ≤ n →
      AllGood (processLoop nodes pd pbt c).1 ∧
      (parentBlockifiesOf pd = false →
        ∀ b ∈ (processLoop nodes pd pbt c).1,
          (kindA b.boxType || kindB b.boxType) = true) := by
    intro nodes pd pbt c hsz
    match nodes with
    | [] =>
      rw [pl_nil]
      exact ⟨AllGood_nil, by intro _ b hb; simp at hb⟩
    | .text tid s :: rest =>
      have hrest : sizeL rest < n := by
        have h1 : sizeL (SNode.text tid s :: rest) = 1 + sizeL rest := by
          simp [sizeL, sizeN]
        omega
      by_cases hws : isWhitespaceOnly s
      · rw [pl_text_ws _ _ _ _ _ hws]
        exact (ih _ hrest).1 rest pd pbt c (le_refl _)
      · rw [pl_text_box _ _ _ _ _ (by simpa using hws)]
        obtain ⟨hg, hk⟩ := (ih _ hrest).1 rest pd pbt (c + 1) (le_refl _)
        constructor
        · exact AllGood_cons (goodN_textAnonBox pd s tid (c + 1)) hg
        · intro hpb b hb
          rcases List.mem_cons.mp hb with rfl | hb
          · simp [textAnonBox_kindB s tid (c + 1) hpb]
          · exact hk hpb b hb
    | .elem eid tag cn st kids :: rest =>
      have hsz1 : sizeL (SNode.elem eid tag cn st kids :: rest)
          = 1 + sizeL kids + sizeL rest := by
        simp [sizeL, sizeN]
      have hrest : sizeL rest < n := by omega
      have hkids : sizeL kids < n := by omega
      by_cases hgen : generatesBox (resolveDisplay st tag)
      case neg =>
        rw [pl_elem_none _ _ _ _ _ _ _ (by simpa using hgen)]
        exact (ih _ hrest).1 rest pd pbt c (le_refl _)
      case pos =>
      by_cases hcont : isContents (resolveDisplay st tag)
      case pos =>
        rw [pl_elem_contents _ _ _ _ _ _ _ hgen hcont]
        obtain ⟨hg1, hk1, _⟩ :=
          (ih _ hkids).2.1 kids pd pbt c (le_refl _)
        obtain ⟨hg2, hk2⟩ := (ih _ hrest).1 rest pd pbt
          (processChildrenFn kids pd pbt c).2 (le_refl _)
        constructor
        · exact AllGood_append hg1 hg2
        · intro hpb b hb
          rcases List.mem_append.mp hb with hb | hb
          · exact hk1 hpb b hb
          · exact hk2 hpb b hb
      case neg =>
      by_cases hsplit : (isInlineLevel (resolveDisplay st tag) &&
          !(parentBFCOf pd) && hasBlockKids kids &&
          !(establishesBlockFormattingContext (resolveDisplay st tag))) = true
      case pos =>
        rw [pl_elem_split _ _ _ _ _ _ _ hgen (by simpa using hcont) hsplit]
        obtain ⟨hg1, hk1⟩ := (ih _ hkids).2.2 kids (resolveDisplay st tag)
          (parentBlockifiesOf pd) [] c (le_refl _) AllGood_nil
        obtain ⟨hg2, hk2⟩ := (ih _ hrest).1 rest pd pbt
          (splitGo kids (resolveDisplay st tag)
            (parentBlockifiesOf pd) [] c).2 (le_refl _)
        constructor
        · exact AllGood_append hg1 hg2
        · intro hpb b hb
          rcases List.mem_append.mp hb with hb | hb
          · simp [hk1 b hb]
          · exact hk2 hpb b hb
      case neg =>
        rw [pl_elem_normal _ _ _ _ _ _ _ hgen (by simpa using hcont)
          (by simpa using hsplit)]
        obtain ⟨hg1, hk1, hh1⟩ := (ih _ hkids).2.1 kids (resolveDisplay st tag)
          (some (blockifiedBoxType (resolveDisplay st tag)
            (parentBlockifiesOf pd) pd)) (c + 1) (le_refl _)
        obtain ⟨hg2, hk2⟩ := (ih _ hrest).1 rest pd pbt
          (processChildrenFn kids (resolveDisplay st tag)
            (some (blockifiedBoxType (resolveDisplay st tag)
              (parentBlockifiesOf pd) pd)) (c + 1)).2 (le_refl _)
        constructor
        · refine AllGood_cons ?_ hg2
          intro x hx
          rcases mem_allBoxesN.mp hx with rfl | hx
          · refine ⟨⟨?_, ?_⟩, ?_⟩
            · rw [mkElemBox_displayType]
              intro he
              exact generatesBox_ne_none hgen (Option.some.inj he)
            · rw [mkElemBox_displayType]
              intro he
              exact isContents_false_ne (by simpa using hcont)
                (Option.some.inj he)
            · intro d' hd' hbc'
              rw [mkElemBox_displayType] at hd'
              obtain rfl := Option.some.inj hd'
              rw [mkElemBox_children]
              exact hh1 (by simpa [parentIsBlockContainerOf] using hbc')
          · rw [mkElemBox_children] at hx
            exact hg1 x hx
        · intro hpb b hb
          rcases List.mem_cons.mp hb with rfl | hb
          · rw [mkElemBox_boxType, hpb, bbt_pb_false]
            exact getBoxType_kindAB (resolveDisplay st tag)
          · exact hk2 hpb b hb
  -- processChildrenFn statement at the current bound
  have hpcf : ∀ nodes pd pbt c, sizeL nodes ≤ n →
      AllGood (processChildrenFn nodes pd pbt c).1 ∧
      (parentBlockifiesOf pd = false →
        ∀ b ∈ (processChildrenFn nodes pd pbt c).1,
          (kindA b.boxType || kindB b.boxType) = true) ∧
      (parentIsBlockContainerOf pd = true →
        HomogAB (processChildrenFn nodes pd pbt c).1) := by
    intro nodes pd pbt c hsz
    obtain ⟨hg, hk⟩ := hloop nodes pd pbt c hsz
    rw [pcf_def]
    by_cases hbc : (parentIsBlockContainerOf pd && !parentBlockifiesOf pd)
      = true
    case neg =>
      rw [if_neg hbc]
      refine ⟨hg, hk, ?_⟩
      intro hcont'
      exact absurd (show (parentIsBlockContainerOf pd &&
          !parentBlockifiesOf pd) = true by
        simp [hcont', container_not_blockifies hcont']) hbc
    case pos =>
      rw [if_pos hbc]
      have hpb : parentBlockifiesOf pd = false := by
        have h := hbc
        simp only [Bool.and_eq_true] at h
        simpa using h.2
      by_cases hany : (processLoop nodes pd pbt c).1.any isBlockishBox = true
      case pos =>
        rw [if_pos hany]
        have hka := wrapGo_kindA (processLoop nodes pd pbt c).1 Option.none
          (processLoop nodes pd pbt c).2 (hk hpb)
        refine ⟨?_, ?_, ?_⟩
        · intro x hx
          rcases wrapGo_mem _ _ _ x hx with h | h | h
          · exact hg x h
          · simp [curMembers, allBoxesL] at h
          · exact GoodBox_of_noDisplay h
        · intro _ b hb
          simp [hka b hb]
        · intro _
          exact Or.inl (fun b hb => hka b hb)
      case neg =>
        rw [if_neg hany]
        refine ⟨hg, hk, ?_⟩
        intro _
        refine Or.inr ?_
        intro b hb
        have hab := hk hpb b hb
        have hnA : kindA b.boxType = false := by
          have := List.any_eq_false.mp (by simpa using hany) b hb
          simpa [isBlockishBox_eq_kindA] using this
        simpa [hnA] using hab
  -- splitGo statement at the current bound
  have hsplitg : ∀ nodes inlineD pb cur c, sizeL nodes ≤ n → AllGood cur →
      AllGood (splitGo nodes inlineD pb cur c).1 ∧
      ∀ b ∈ (splitGo nodes inlineD pb cur c).1, kindA b.boxType = true := by
    intro nodes inlineD pb cur c hsz hcur
    match nodes with
    | [] =>
      rw [sg_nil]
      exact ⟨closeCur_good hcur, closeCur_kindA cur c⟩
    | .text tid s :: rest =>
      have hrest : sizeL rest < n := by
        have h1 : sizeL (SNode.text tid s :: rest) = 1 + sizeL rest := by
          simp [sizeL, sizeN]
        omega
      by_cases hws : isWhitespaceOnly s
      · rw [sg_text_ws _ _ _ _ _ _ hws]
        exact (ih _ hrest).2.2 rest inlineD pb cur c (le_refl _) hcur
      · rw [sg_text_box _ _ _ _ _ _ (by simpa using hws)]
        refine (ih _ hrest).2.2 rest inlineD pb _ (c + 1) (le_refl _) ?_
        exact AllGood_append hcur (AllGood_singleton goodN_anonInline)
    | .elem eid tag cn st kids :: rest =>
      have hsz1 : sizeL (SNode.elem eid tag cn st kids :: rest)
          = 1 + sizeL kids + sizeL rest := by
        simp [sizeL, sizeN]
      have hrest : sizeL rest < n := by omega
      have hkids : sizeL kids < n := by omega
      by_cases hgen : generatesBox (resolveDisplay st tag)
      case neg =>
        rw [sg_elem_none _ _ _ _ _ _ _ _ (by simpa using hgen)]
        exact (ih _ hrest).2.2 rest inlineD pb cur c (le_refl _) hcur
      case pos =>
      by_cases hcont : isContents (resolveDisplay st tag)
      case pos =>
        rw [sg_elem_contents _ _ _ _ _ _ _ _ hgen hcont]
        obtain ⟨hg1, _, _⟩ := (ih _ hkids).2.1 kids inlineD Option.none c
          (le_refl _)
        exact (ih _ hrest).2.2 rest inlineD pb _ _ (le_refl _)
          (AllGood_append hcur hg1)
      case neg =>
      by_cases hblk : isBlockLevel (resolveDisplay st tag)
      case pos =>
        rw [sg_elem_block _ _ _ _ _ _ _ _ hgen (by simpa using hcont) hblk]
        obtain ⟨hg1, _, hh1⟩ := (ih _ hkids).2.1 kids (resolveDisplay st tag)
          (some (blockifiedBoxType (resolveDisplay st tag) pb Option.none))
          ((closeCur cur c).2 + 1) (le_refl _)
        obtain ⟨hg2, hk2⟩ := (ih _ hrest).2.2 rest inlineD pb []
          (processChildrenFn kids (resolveDisplay st tag)
            (some (blockifiedBoxType (resolveDisplay st tag) pb Option.none))
            ((closeCur cur c).2 + 1)).2 (le_refl _) AllGood_nil
        constructor
        · refine AllGood_append (closeCur_good hcur) (AllGood_cons ?_ hg2)
          intro x hx
          rcases mem_allBoxesN.mp hx with rfl | hx
          · refine ⟨⟨?_, ?_⟩, ?_⟩
            · rw [mkElemBox_displayType]
              intro he
              exact (blockLevel_ne hblk).1 (Option.some.inj he)
            · rw [mkElemBox_displayType]
              intro he
              exact (blockLevel_ne hblk).2 (Option.some.inj he)
            · intro d' hd' hbc'
              rw [mkElemBox_displayType] at hd'
              obtain rfl := Option.some.inj hd'
              rw [mkElemBox_children]
              exact hh1 (by simpa [parentIsBlockContainerOf] using hbc')
          · rw [mkElemBox_children] at hx
            exact hg1 x hx
        · intro b hb
          rcases List.mem_append.mp hb with hb | hb
          · exact closeCur_kindA cur c b hb
          · rcases List.mem_cons.mp hb with rfl | hb
            · rw [mkElemBox_boxType, bbt_pd_none]
              exact getBoxType_kindA_of_blockLevel hblk
            · exact hk2 b hb
      case neg =>
      by_cases hnst : (!(establishesBlockFormattingContext
          (resolveDisplay st tag)) && hasBlockKids kids) = true
      case pos =>
        rw [sg_elem_nested _ _ _ _ _ _ _ _ hgen (by simpa using hcont)
          (by simpa using hblk) hnst]
        obtain ⟨hg1, hk1⟩ := (ih _ hkids).2.2 kids (resolveDisplay st tag) pb
          [] c (le_refl _) AllGood_nil
        have hmg : ∀ x,
            (x ∈ allBoxesL (mergeNested
                (splitGo kids (resolveDisplay st tag) pb [] c).1 cur
                (splitGo kids (resolveDisplay st tag) pb [] c).2).1 ∨
             x ∈ allBoxesL (mergeNested
                (splitGo kids (resolveDisplay st tag) pb [] c).1 cur
                (splitGo kids (resolveDisplay st tag) pb [] c).2).2.1) →
            GoodBox x := by
          intro x hx
          rcases mergeNested_mem _ _ _ x hx with h | h | h
          · exact hg1 x h
          · exact hcur x h
          · exact GoodBox_of_noDisplay h
        obtain ⟨hg2, hk2⟩ := (ih _ hrest).2.2 rest inlineD pb
          (mergeNested (splitGo kids (resolveDisplay st tag) pb [] c).1 cur
            (splitGo kids (resolveDisplay st tag) pb [] c).2).2.1
          (mergeNested (splitGo kids (resolveDisplay st tag) pb [] c).1 cur
            (splitGo kids (resolveDisplay st tag) pb [] c).2).2.2 (le_refl _)
          (fun x hx => hmg x (Or.inr hx))
        constructor
        · exact AllGood_append (fun x hx => hmg x (Or.inl hx)) hg2
        · intro b hb
          rcases List.mem_append.mp hb with hb | hb
          · exact mergeNested_kindA _ _ _ hk1 b hb
          · exact hk2 b hb
      case neg =>
        rw [sg_elem_inline _ _ _ _ _ _ _ _ hgen (by simpa using hcont)
          (by simpa using hblk) (by simpa using hnst)]
        obtain ⟨hg1, _, hh1⟩ := (ih _ hkids).2.1 kids (resolveDisplay st tag)
          (some (blockifiedBoxType (resolveDisplay st tag) pb Option.none))
          (c + 1) (le_refl _)
        refine (ih _ hrest).2.2 rest inlineD pb _ _ (le_refl _) ?_
        refine AllGood_append hcur (AllGood_singleton ?_)
        intro x hx
        rcases mem_allBoxesN.mp hx with rfl | hx
        · refine ⟨⟨?_, ?_⟩, ?_⟩
          · rw [mkElemBox_displayType]
            intro he
            exact generatesBox_ne_none hgen (Option.some.inj he)
          · rw [mkElemBox_displayType]
            intro he
            exact isContents_false_ne (by simpa using hcont)
              (Option.some.inj he)
          · intro d' hd' hbc'
            rw [mkElemBox_displayType] at hd'
            obtain rfl := Option.some.inj hd'
            rw [mkElemBox_children]
            exact hh1 (by simpa [parentIsBlockContainerOf] using hbc')
        · rw [mkElemBox_children] at hx
          exact hg1 x hx
  exact ⟨hloop, hpcf, hsplitg⟩

/-! ## Root shape of a generation result -/

theorem mkElemBox_id (eid : Nat) (tag cn : String) (st : Option String)
    (kids : List SNode) (d : DisplayType) (pb : Bool)
    (pd : Option DisplayType) (i : Nat) (ch : List BoxNode) :
    (mkElemBox eid tag cn st kids d pb pd i ch).id = i := rfl

/-- Every successful generation returns a root of one of the two shapes: the
synthetic body wrapper or the boxed single element child; in both, the root
has id 1, a display type that generates a box, children produced by one
`processChildren` call under the root's own display type, and the write list
produced by `buildElementMap` on the root. -/
theorem generateBoxTree_shape (pr : ParseResult) :
    (generateBoxTree pr).1 = Option.none ∨
    ∃ root d0 kids0 pbt0,
      (generateBoxTree pr).1 = some root ∧
      (generateBoxTree pr).2.2 = (bemGo root emptyElemMap).2 ∧
      root.id = 1 ∧
      root.displayType = some d0 ∧
      generatesBox d0 = true ∧
      root.children = (processChildrenFn kids0 (some d0) pbt0 1).1 := by
  cases pr with
  | error e => exact Or.inl rfl
  | ok o =>
    cases o with
    | none => exact Or.inl rfl
    | some p =>
      obtain ⟨bid, kids⟩ := p
      have hbody : ∀ b k,
          (bodyRootResult b k).1.1 = some (bodyRoot b k) ∧
          (bodyRootResult b k).1.2.2 = (bemGo (bodyRoot b k) emptyElemMap).2 ∧
          (bodyRoot b k).id = 1 ∧
          (bodyRoot b k).displayType = some .block ∧
          (bodyRoot b k).children
            = (processChildrenFn k (some .block) (some .block) 1).1 :=
        fun b k => ⟨rfl, rfl, rfl, rfl, rfl⟩
      simp only [generateBoxTree, generateBoxTreeG]
      split
      case h_1 eid tag cn st ckids heq =>
        by_cases hnwt : (kids.any fun n => match n with
          | .text _ s => !(isWhitespaceOnly s)
          | _ => false) = true
        · rw [if_pos hnwt]
          refine Or.inr ⟨bodyRoot bid kids, .block, kids, some .block,
            (hbody bid kids).1, (hbody bid kids).2.1, rfl, rfl, by decide,
            (hbody bid kids).2.2.2.2⟩
        · rw [if_neg hnwt]
          by_cases hgen : generatesBox (resolveDisplay st tag)
          · rw [if_neg (by simp [hgen])]
            by_cases hns : (isInlineLevel (resolveDisplay st tag) &&
                !(establishesBlockFormattingContext (resolveDisplay st tag)) &&
                hasBlockKids ckids) = true
            · rw [if_pos hns]
              refine Or.inr ⟨bodyRoot bid kids, .block, kids, some .block,
                (hbody bid kids).1, (hbody bid kids).2.1, rfl, rfl, by decide,
                (hbody bid kids).2.2.2.2⟩
            · rw [if_neg hns]
              exact Or.inr ⟨_, resolveDisplay st tag, ckids,
                some (blockifiedBoxType (resolveDisplay st tag) false
                  Option.none), rfl, rfl, rfl, rfl, hgen, rfl⟩
          · rw [if_pos (by simpa using hgen)]
            exact Or.inl rfl
      case h_2 heq =>
        exact Or.inr ⟨bodyRoot bid kids, .block, kids, some .block,
          (hbody bid kids).1, (hbody bid kids).2.1, rfl, rfl, by decide,
          (hbody bid kids).2.2.2.2⟩

/-! ## Claim theorems: the global invariants -/

/-- C1 (Invariant I3): every box in the output whose display keyword is a
block container per `isBlockContainer` and does not blockify its children
has homogeneous immediate children: all block-level-or-anonymous-block or
all inline-level-or-anonymous-inline, recursively over the whole tree. -/
theorem claim1_containment (pr : ParseResult) (root : BoxNode)
    (hr : (generateBoxTree pr).1 = some root) :
    ∀ x ∈ allBoxesN root, ∀ d, x.displayType = some d →
      isBlockContainer d = true → blockifiesChildren d = false →
      HomogAB x.children := by
  rcases generateBoxTree_shape pr with h | ⟨root', d0, kids0, pbt0, h1, _, _,
    hdt, _, hch⟩
  · rw [hr] at h; exact Option.noConfusion h
  · rw [hr] at h1
    obtain rfl := Option.some.inj h1
    intro x hx d hxd hbc _
    rcases mem_allBoxesN.mp hx with rfl | hx
    · rw [hdt] at hxd
      obtain rfl := Option.some.inj hxd
      rw [hch]
      exact ((generation_good (sizeL kids0)).2.1 kids0 (some d0) pbt0 1
        (le_refl _)).2.2 (by simpa [parentIsBlockContainerOf] using hbc)
    · rw [hch] at hx
      have hgood := ((generation_good (sizeL kids0)).2.1 kids0 (some d0) pbt0 1
        (le_refl _)).1 x hx
      exact hgood.2 d hxd hbc

/-- C2 amended (Invariant I4, corrected): no box in the output has resolved
display `none`; no box *below the root* has resolved display `contents`.
(The root itself can carry `contents` when a `display:contents` element is
the single top-level element child — see the counterexample.) -/
theorem claim2_amended (pr : ParseResult) (root : BoxNode)
    (hr : (generateBoxTree pr).1 = some root) :
    (∀ x ∈ allBoxesN root, x.displayType ≠ some DisplayType.none) ∧
    (∀ x ∈ allBoxesL root.children,
      x.displayType ≠ some DisplayType.contents) := by
  rcases generateBoxTree_shape pr with h | ⟨root', d0, kids0, pbt0, h1, _, _,
    hdt, hgen, hch⟩
  · rw [hr] at h; exact Option.noConfusion h
  · rw [hr] at h1
    obtain rfl := Option.some.inj h1
    have hgood : AllGood root.children := by
      rw [hch]
      exact ((generation_good (sizeL kids0)).2.1 kids0 (some d0) pbt0 1
        (le_refl _)).1
    constructor
    · intro x hx
      rcases mem_allBoxesN.mp hx with rfl | hx
      · rw [hdt]
        intro he
        exact generatesBox_ne_none hgen (Option.some.inj he)
      · exact (hgood x hx).1.1
    · intro x hx
      exact (hgood x hx).1.2

/-! ## Characterizing the source-tree writes (C5) -/

mutual
/-- Size of a box node, for induction. -/
def bsizeN : BoxNode → Nat
  | .mk _ _ _ _ _ _ _ _ ch _ _ _ => 1 + bsizeL ch
/-- Size of a box forest. -/
def bsizeL : List BoxNode → Nat
  | [] => 0
  | b :: bs => bsizeN b + bsizeL bs
end

theorem bsizeN_pos (b : BoxNode) : 0 < bsizeN b := by
  cases b; simp [bsizeN]

/-- The `data-box-id` write a box contributes: its own source element tagged
with its own id, nothing for anonymous or text-backed boxes. -/
def boxWriteOf (x : BoxNode) : Option (Nat × Nat) :=
  x.element.map (fun e => (e, x.id))

theorem bemGo_writes_bound : ∀ n : Nat,
    (∀ (b : BoxNode) (m : ElemMap), bsizeN b ≤ n →
      (bemGo b m).2 = (allBoxesN b).filterMap boxWriteOf) ∧
    (∀ (bs : List BoxNode) (m : ElemMap), bsizeL bs ≤ n →
      (bemGoList bs m).2 = (allBoxesL bs).filterMap boxWriteOf) := by
  intro n
  induction n using Nat.strong_induction_on with
  | _ n ih =>
  have hN : ∀ (b : BoxNode) (m : ElemMap), bsizeN b ≤ n →
      (bemGo b m).2 = (allBoxesN b).filterMap boxWriteOf := by
    intro b m hb
    cases b with
    | mk i bt dt el tc tg cn st ch ia ie tn =>
      have hch : bsizeL ch < n := by
        have : bsizeN (BoxNode.mk i bt dt el tc tg cn st ch ia ie tn)
            = 1 + bsizeL ch := by simp [bsizeN]
        omega
      have hrec : ∀ m' : ElemMap, (bemGoList ch m').2
          = (allBoxesL ch).filterMap boxWriteOf :=
        fun m' => (ih _ hch).2 ch m' (le_refl _)
      cases el with
      | none =>
        cases tn with
        | none => simp [bemGo, allBoxesN, hrec, List.filterMap_cons, boxWriteOf,
            BoxNode.element]
        | some tid => simp [bemGo, allBoxesN, hrec, List.filterMap_cons,
            boxWriteOf, BoxNode.element]
      | some eid =>
        cases tn with
        | none => simp [bemGo, allBoxesN, hrec, List.filterMap_cons, boxWriteOf,
            BoxNode.element, BoxNode.id]
        | some tid => simp [bemGo, allBoxesN, hrec, List.filterMap_cons,
            boxWriteOf, BoxNode.element, BoxNode.id]
  have hL : ∀ (bs : List BoxNode) (m : ElemMap), bsizeL bs ≤ n →
      (bemGoList bs m).2 = (allBoxesL bs).filterMap boxWriteOf := by
    intro bs m hbs
    cases bs with
    | nil => simp [bemGoList, allBoxesL]
    | cons b rest =>
      have hb : bsizeN b ≤ n := by
        have : bsizeL (b :: rest) = bsizeN b + bsizeL rest := by simp [bsizeL]
        omega
      have hrest : bsizeL rest < n := by
        have h1 : bsizeL (b :: rest) = bsizeN b + bsizeL rest := by
          simp [bsizeL]
        have h2 := bsizeN_pos b
        omega
      rw [show bemGoList (b :: rest) m
          = ((bemGoList rest (bemGo b m).1).1,
             (bemGo b m).2 ++ (bemGoList rest (bemGo b m).1).2) by
        simp [bemGoList]]
      rw [allBoxesL_cons, List.filterMap_append]
      rw [hN b m hb, (ih _ hrest).2 rest _ (le_refl _)]
  exact ⟨hN, hL⟩

/-- C5 amended: generation *does* mutate the source tree, but in exactly one
way: while building the map it sets `data-box-id` on each element-backed
box's own source element to that box's id — the write list is precisely the
element-backed boxes of the output tree in traversal order; no other source
node is touched, and an absent tree produces no writes. -/
theorem claim5_amended_writes (pr : ParseResult) (root : BoxNode)
    (hr : (generateBoxTree pr).1 = some root) :
    (generateBoxTree pr).2.2
      = (allBoxesN root).filterMap boxWriteOf := by
  rcases generateBoxTree_shape pr with h | ⟨root', _, _, _, h1, hw, _, _, _, _⟩
  · rw [hr] at h; exact Option.noConfusion h
  · rw [hr] at h1
    obtain rfl := Option.some.inj h1
    rw [hw]
    exact (bemGo_writes_bound (bsizeN root)).1 root emptyElemMap (le_refl _)

/-! ## Shared concrete fixture for witnesses -/

/-- The box tree generated for `<div><span>hi</span></div>`. -/
def witnessRoot : BoxNode :=
  .mk 1 .block (some .block) (some 1) Option.none (some "div") Option.none
     Option.none
     [.mk 2 .inline (some .inline) (some 2) Option.none (some "span")
        Option.none Option.none
        [.mk 3 .anonymousInline Option.none Option.none (some "hi")
           Option.none Option.none Option.none [] true false (some 10)]
        false false Option.none]
     false false Option.none

theorem witnessRoot_eq :
    (generateBoxTree parsedPlainDiv).1 = some witnessRoot := by
  simp [generateBoxTree, generateBoxTreeG, parsedPlainDiv, bodyRootResult,
    bodyRoot, processChildrenFn, processLoop, splitGo, parentBlockifiesOf,
    parentIsBlockLevelOf, parentBFCOf, parentIsBlockContainerOf, closeCur,
    textAnonBox, hasBlockKids, mkElemBox, blockifiedBoxType,
    getBoxTypeFromDisplay, mkAnonInline, generatesBox, isContents,
    isBlockLevel, isInlineLevel, establishesBlockFormattingContext,
    blockifiesChildren, isBlockContainer, isBlockishBox, SNode.isElem,
    countElemKids, textContentN, textContentL, witnessRoot, BoxNode.boxType,
    resolve_plain_div, resolve_plain_span, ws_hi, lower_div, lower_span]

/-- Witness for C1 at `<div><span>hi</span></div>`: the root is a
non-blockifying block container and its children are homogeneous. -/
theorem claim1_witness :
    (generateBoxTree parsedPlainDiv).1 = some witnessRoot ∧
    witnessRoot.displayType = some DisplayType.block ∧
    isBlockContainer DisplayType.block = true ∧
    blockifiesChildren DisplayType.block = false ∧
    HomogAB witnessRoot.children :=
  ⟨witnessRoot_eq, rfl, by decide, by decide,
   claim1_containment parsedPlainDiv witnessRoot witnessRoot_eq witnessRoot
     (mem_allBoxesN.mpr (Or.inl rfl)) .block rfl (by decide) (by decide)⟩

/-- Witness for the amended C2 at `<div><span>hi</span></div>`. -/
theorem claim2_amended_witness :
    (generateBoxTree parsedPlainDiv).1 = some witnessRoot ∧
    (∀ x ∈ allBoxesN witnessRoot, x.displayType ≠ some DisplayType.none) ∧
    (∀ x ∈ allBoxesL witnessRoot.children,
      x.displayType ≠ some DisplayType.contents) :=
  ⟨witnessRoot_eq,
   (claim2_amended parsedPlainDiv witnessRoot witnessRoot_eq).1,
   (claim2_amended parsedPlainDiv witnessRoot witnessRoot_eq).2⟩

/-- Witness for the amended C5 at `<div><span>hi</span></div>`. -/
theorem claim5_amended_witness :
    (generateBoxTree parsedPlainDiv).1 = some witnessRoot ∧
    (generateBoxTree parsedPlainDiv).2.2
      = (allBoxesN witnessRoot).filterMap boxWriteOf :=
  ⟨witnessRoot_eq,
   claim5_amended_writes parsedPlainDiv witnessRoot witnessRoot_eq⟩

/-! ## Identity freshness (Invariant I2 / C8)

Ids are drawn from the strictly increasing counter; we track, for every
recursive entry point, that the output's ids are (input ids or) fresh ids
from the consumed counter window, and pairwise distinct. -/

/-- All ids of one box and its descendants. -/
def idsOfN (b : BoxNode) : List Nat := (allBoxesN b).map BoxNode.id

theorem idsOfL_append (as bs : List BoxNode) :
    idsOfL (as ++ bs) = idsOfL as ++ idsOfL bs := by
  simp [idsOfL, allBoxesL_append]

theorem idsOfL_cons (b : BoxNode) (bs : List BoxNode) :
    idsOfL (b :: bs) = idsOfN b ++ idsOfL bs := by
  simp [idsOfL, idsOfN, allBoxesL_cons]

theorem idsOfN_eq (b : BoxNode) :
    idsOfN b = b.id :: idsOfL b.children := by
  simp [idsOfN, idsOfL, allBoxesN_eq]

theorem idsOfL_nil : idsOfL [] = [] := rfl

/-- Disjointness of two id lists separated by a bound. -/
theorem disj_of_window {l1 l2 : List Nat} {m : Nat}
    (h1 : ∀ i ∈ l1, i ≤ m) (h2 : ∀ i ∈ l2, m < i) : l1.Disjoint l2 := by
  intro i hi1 hi2
  exact absurd (h1 i hi1) (by simpa using h2 i hi2)

/-- Ids given by provenance (input ids up to `m ≤ c`, or a fresh window
`(c, c']`) are bounded by `c'`. -/
theorem bound_of_prov {out old : List Nat} {c c' : Nat}
    (hC : ∀ i ∈ out, i ∈ old ∨ (c < i ∧ i ≤ c'))
    (hold : ∀ i ∈ old, i ≤ c) (hcc : c ≤ c') :
    ∀ i ∈ out, i ≤ c' := by
  intro i hi
  rcases hC i hi with h | h
  · exact le_trans (hold i h) hcc
  · exact h.2

/-- `closeCur` freshness: ids of the closing are the run's ids plus at most
the one fresh anonymous id. -/
theorem closeCur_fresh (cur : List BoxNode) (c : Nat)
    (hold : ∀ i ∈ idsOfL cur, i ≤ c) (hnd : (idsOfL cur).Nodup) :
    c ≤ (closeCur cur c).2 ∧
    (idsOfL (closeCur cur c).1).Nodup ∧
    (∀ i ∈ idsOfL (closeCur cur c).1,
      i ∈ idsOfL cur ∨ (c < i ∧ i ≤ (closeCur cur c).2)) := by
  cases cur with
  | nil => exact ⟨le_refl _, by simp [closeCur, idsOfL_nil], by
      intro i hi; simp [closeCur, idsOfL_nil] at hi⟩
  | cons x xs =>
    refine ⟨Nat.le_succ c, ?_, ?_⟩
    · have : idsOfL (closeCur (x :: xs) c).1 = (c + 1) :: idsOfL (x :: xs) := by
        simp [closeCur, idsOfL_cons, idsOfN_eq, mkAnonBlock, BoxNode.id,
          BoxNode.children, idsOfL_nil]
      rw [this]
      refine List.Nodup.cons ?_ hnd
      intro hmem
      exact absurd (hold _ hmem) (by omega)
    · intro i hi
      have heq : idsOfL (closeCur (x :: xs) c).1
          = (c + 1) :: idsOfL (x :: xs) := by
        simp [closeCur, idsOfL_cons, idsOfN_eq, mkAnonBlock, BoxNode.id,
          BoxNode.children, idsOfL_nil]
      rw [heq] at hi
      rcases List.mem_cons.mp hi with rfl | hi
      · exact Or.inr ⟨by omega, by simp [closeCur]⟩
      · exact Or.inl hi

theorem perm_of_ms {l1 l2 : List Nat}
    (h : (l1 : Multiset Nat) = (l2 : Multiset Nat)) : l1.Perm l2 :=
  Multiset.coe_eq_coe.mp h

theorem nodup3 {L M R : List Nat} (h : ((L ++ M) ++ R).Nodup) :
    L.Nodup ∧ M.Nodup ∧ R.Nodup ∧ L.Disjoint M ∧ L.Disjoint R ∧
      M.Disjoint R := by
  rcases List.nodup_append.mp h with ⟨hLM, hR, hDis⟩
  rcases List.nodup_append.mp hLM with ⟨hL, hM, hLM2⟩
  exact ⟨hL, hM, hR, hLM2,
    fun x hx => hDis (List.mem_append.mpr (Or.inl hx)),
    fun x hx => hDis (List.mem_append.mpr (Or.inr hx))⟩

theorem nodup3_mk {L M R : List Nat} (hL : L.Nodup) (hM : M.Nodup)
    (hR : R.Nodup) (dLM : L.Disjoint M) (dLR : L.Disjoint R)
    (dMR : M.Disjoint R) : ((L ++ M) ++ R).Nodup := by
  refine List.Nodup.append (List.Nodup.append hL hM dLM) hR ?_
  intro x hx
  rcases List.mem_append.mp hx with hx | hx
  · exact dLR hx
  · exact dMR hx

/-- The ids held by the wrap pass's open run. -/
def curIdsOf : Option (Nat × List BoxNode) → List Nat
  | Option.none => []
  | some (i, xs) => i :: idsOfL xs

/-- Freshness of the wrap pass: it emits the input ids (boxes are moved, not
re-created) plus fresh anonymous-block ids from the consumed counter window,
without duplicates. -/
theorem wrapGo_fresh :
    ∀ (bs : List BoxNode) (cur : Option (Nat × List BoxNode)) (c : Nat),
      (∀ i ∈ idsOfL bs ++ curIdsOf cur, i ≤ c) →
      (idsOfL bs ++ curIdsOf cur).Nodup →
      c ≤ (wrapGo bs cur c).2 ∧
      (idsOfL (wrapGo bs cur c).1).Nodup ∧
      (∀ i ∈ idsOfL (wrapGo bs cur c).1,
        i ∈ idsOfL bs ++ curIdsOf cur ∨
          (c < i ∧ i ≤ (wrapGo bs cur c).2)) := by
  intro bs
  induction bs with
  | nil =>
    rintro (_ | ⟨i, xs⟩) c hold hnd
    · exact ⟨le_refl _, by simp [wrapGo, idsOfL_nil],
        by intro j hj; simp [wrapGo, idsOfL_nil] at hj⟩
    · have heq : idsOfL (wrapGo [] (some (i, xs)) c).1 = i :: idsOfL xs := by
        simp [wrapGo, idsOfL_cons, idsOfN_eq, mkAnonBlock, BoxNode.id,
          BoxNode.children, idsOfL_nil]
      refine ⟨le_refl _, ?_, ?_⟩
      · rw [heq]
        simpa [idsOfL_nil, curIdsOf] using hnd
      · intro j hj
        rw [heq] at hj
        exact Or.inl (by simpa [idsOfL_nil, curIdsOf] using hj)
  | cons a as ih =>
    intro cur c hold hnd
    have hsplit3 := nodup3 (by
      simpa [idsOfL_cons, List.append_assoc] using hnd :
      ((idsOfN a ++ idsOfL as) ++ curIdsOf cur).Nodup)
    obtain ⟨hndA, hndAs, hndR, dAM, dAR, dMR⟩ := hsplit3
    have holdA : ∀ i ∈ idsOfN a, i ≤ c := fun i hi =>
      hold i (by simp [idsOfL_cons, hi])
    have holdAs : ∀ i ∈ idsOfL as, i ≤ c := fun i hi =>
      hold i (by simp [idsOfL_cons, hi])
    have holdR : ∀ i ∈ curIdsOf cur, i ≤ c := fun i hi =>
      hold i (by simp [idsOfL_cons, hi])
    cases cur with
    | none =>
      by_cases hia : isInlineForWrap a
      · rw [show wrapGo (a :: as) Option.none c
            = wrapGo as (some (c + 1, [a])) (c + 1) by simp [wrapGo, hia]]
        have hperm : (idsOfL as ++ curIdsOf (some (c + 1, [a]))).Perm
            ((c + 1) :: (idsOfN a ++ idsOfL as)) := by
          apply perm_of_ms
          simp only [curIdsOf, idsOfL_cons, idsOfL_nil, List.append_nil,
            ← Multiset.coe_add, ← Multiset.cons_coe, ← Multiset.singleton_add]
          abel
        have hold' : ∀ i ∈ idsOfL as ++ curIdsOf (some (c + 1, [a])),
            i ≤ c + 1 := by
          intro i hi
          rcases List.mem_cons.mp (hperm.mem_iff.mp hi) with rfl | hi2
          · exact le_refl _
          · rcases List.mem_append.mp hi2 with h | h
            · exact le_trans (holdA i h) (Nat.le_succ c)
            · exact le_trans (holdAs i h) (Nat.le_succ c)
        have hnd' : (idsOfL as ++ curIdsOf (some (c + 1, [a]))).Nodup := by
          refine hperm.symm.nodup (List.nodup_cons.mpr ⟨?_, ?_⟩)
          · intro hmem
            rcases List.mem_append.mp hmem with h | h
            · exact absurd (holdA _ h) (by omega)
            · exact absurd (holdAs _ h) (by omega)
          · exact List.Nodup.append hndA hndAs dAM
        obtain ⟨ha, hb, hc2⟩ := ih (some (c + 1, [a])) (c + 1) hold' hnd'
        refine ⟨by omega, hb, ?_⟩
        intro i hi
        rcases hc2 i hi with h | h
        · rcases List.mem_cons.mp (hperm.mem_iff.mp h) with rfl | h2
          · exact Or.inr ⟨by omega, by omega⟩
          · exact Or.inl (by
              simp only [idsOfL_cons, curIdsOf, List.append_nil]
              exact h2)
        · exact Or.inr ⟨by omega, h.2⟩
      · rw [show wrapGo (a :: as) Option.none c
            = (a :: (wrapGo as Option.none c).1,
               (wrapGo as Option.none c).2) by simp [wrapGo, hia]]
        have hold' : ∀ i ∈ idsOfL as ++ curIdsOf Option.none, i ≤ c := by
          intro i hi
          simp only [curIdsOf, List.append_nil] at hi
          exact holdAs i hi
        have hnd' : (idsOfL as ++ curIdsOf Option.none).Nodup := by
          simpa [curIdsOf] using hndAs
        obtain ⟨ha, hb, hc2⟩ := ih Option.none c hold' hnd'
        refine ⟨ha, ?_, ?_⟩
        · rw [idsOfL_cons]
          refine List.Nodup.append hndA hb ?_
          intro i hiA hiR
          rcases hc2 i hiR with h | h
          · simp only [curIdsOf, List.append_nil] at h
            exact dAM hiA h
          · exact absurd (holdA i hiA) (by omega)
        · intro i hi
          rw [idsOfL_cons] at hi
          rcases List.mem_append.mp hi with h | h
          · exact Or.inl (by simp [idsOfL_cons, h])
          · rcases hc2 i h with h2 | h2
            · simp only [curIdsOf, List.append_nil] at h2
              exact Or.inl (by simp [idsOfL_cons, h2])
            · exact Or.inr h2
    | some p =>
      obtain ⟨j, xs⟩ := p
      by_cases hia : isInlineForWrap a
      · rw [show wrapGo (a :: as) (some (j, xs)) c
            = wrapGo as (some (j, xs ++ [a])) c by simp [wrapGo, hia]]
        have hperm : (idsOfL as ++ curIdsOf (some (j, xs ++ [a]))).Perm
            ((idsOfL (a :: as)) ++ curIdsOf (some (j, xs))) := by
          apply perm_of_ms
          simp only [curIdsOf, idsOfL_cons, idsOfL_append, idsOfL_nil,
            List.append_nil, ← Multiset.coe_add, ← Multiset.cons_coe,
            ← Multiset.singleton_add]
          abel
        have hold' : ∀ i ∈ idsOfL as ++ curIdsOf (some (j, xs ++ [a])),
            i ≤ c := fun i hi => hold i (hperm.mem_iff.mp hi)
        have hnd' := hperm.symm.nodup hnd
        obtain ⟨ha, hb, hc2⟩ := ih (some (j, xs ++ [a])) c hold' hnd'
        refine ⟨ha, hb, ?_⟩
        intro i hi
        rcases hc2 i hi with h | h
        · exact Or.inl (hperm.mem_iff.mp h)
        · exact Or.inr h
      · rw [show wrapGo (a :: as) (some (j, xs)) c
            = (mkAnonBlock j xs :: a :: (wrapGo as Option.none c).1,
               (wrapGo as Option.none c).2) by simp [wrapGo, hia]]
        have hold' : ∀ i ∈ idsOfL as ++ curIdsOf Option.none, i ≤ c := by
          intro i hi
          simp only [curIdsOf, List.append_nil] at hi
          exact holdAs i hi
        have hnd' : (idsOfL as ++ curIdsOf Option.none).Nodup := by
          simpa [curIdsOf] using hndAs
        obtain ⟨ha, hb, hc2⟩ := ih Option.none c hold' hnd'
        have hrProv : ∀ i ∈ idsOfL (wrapGo as Option.none c).1,
            i ∈ idsOfL as ∨ (c < i ∧ i ≤ (wrapGo as Option.none c).2) := by
          intro i hi
          rcases hc2 i hi with h | h
          · simp only [curIdsOf, List.append_nil] at h
            exact Or.inl h
          · exact Or.inr h
        have heq : idsOfL (mkAnonBlock j xs :: a ::
            (wrapGo as Option.none c).1)
            = (j :: idsOfL xs) ++ idsOfN a
                ++ idsOfL (wrapGo as Option.none c).1 := by
          simp [idsOfL_cons, idsOfN_eq, mkAnonBlock, BoxNode.id,
            BoxNode.children, List.append_assoc]
        refine ⟨ha, ?_, ?_⟩
        · rw [heq]
          refine nodup3_mk (by simpa [curIdsOf] using hndR) hndA hb ?_ ?_ ?_
          · intro i hi hi2
            exact dAR hi2 (by simpa [curIdsOf] using hi)
          · intro i hi hi2
            rcases hrProv i hi2 with h | h
            · exact dMR h (by simpa [curIdsOf] using hi)
            · exact absurd (holdR i (by simpa [curIdsOf] using hi))
                (by omega)
          · intro i hi hi2
            rcases hrProv i hi2 with h | h
            · exact dAM hi h
            · exact absurd (holdA i hi) (by omega)
        · rw [heq]
          intro i hi
          rcases List.mem_append.mp hi with hi | hi
          · rcases List.mem_append.mp hi with hi | hi
            · rcases List.mem_cons.mp hi with rfl | hi
              · exact Or.inl (by simp [curIdsOf])
              · exact Or.inl (by simp [idsOfL_cons, curIdsOf]; tauto)
            · exact Or.inl (by simp [idsOfL_cons, curIdsOf]; tauto)
          · rcases hrProv i hi with h | h
            · exact Or.inl (by simp [idsOfL_cons, curIdsOf]; tauto)
            · exact Or.inr h

/-- Windowed append: two id lists from consecutive counter windows chain. -/
theorem win_append {l1 l2 : List Nat} {c0 c1 c2 : Nat}
    (h1n : l1.Nodup) (h1 : ∀ i ∈ l1, c0 < i ∧ i ≤ c1)
    (h2n : l2.Nodup) (h2 : ∀ i ∈ l2, c1 < i ∧ i ≤ c2)
    (hc0 : c0 ≤ c1) (hc2 : c1 ≤ c2) :
    (l1 ++ l2).Nodup ∧ (∀ i ∈ l1 ++ l2, c0 < i ∧ i ≤ c2) := by
  constructor
  · exact List.Nodup.append h1n h2n
      (disj_of_window (fun i hi => (h1 i hi).2) (fun i hi => (h2 i hi).1))
  · intro i hi
    rcases List.mem_append.mp hi with h | h
    · have := h1 i h; omega
    · have := h2 i h; omega

/-- Freshness of the nested-split merge. -/
theorem mergeNested_fresh :
    ∀ (bs cur : List BoxNode) (c : Nat),
      (∀ i ∈ idsOfL bs ++ idsOfL cur, i ≤ c) →
      (idsOfL bs ++ idsOfL cur).Nodup →
      c ≤ (mergeNested bs cur c).2.2 ∧
      (idsOfL (mergeNested bs cur c).1 ++
        idsOfL (mergeNested bs cur c).2.1).Nodup ∧
      (∀ i ∈ idsOfL (mergeNested bs cur c).1 ++
          idsOfL (mergeNested bs cur c).2.1,
        i ∈ idsOfL bs ++ idsOfL cur ∨
          (c < i ∧ i ≤ (mergeNested bs cur c).2.2)) := by
  intro bs
  induction bs with
  | nil =>
    intro cur c hold hnd
    refine ⟨le_refl _, ?_, ?_⟩
    · simpa [mergeNested, idsOfL_nil] using hnd
    · intro i hi
      exact Or.inl (by simpa [mergeNested, idsOfL_nil] using hi)
  | cons b bs ih =>
    intro cur c hold hnd
    by_cases hb : b.boxType == BoxType.anonymousBlock
    · rw [show mergeNested (b :: bs) cur c
          = mergeNested bs (cur ++ b.children) c by simp [mergeNested, hb]]
      have hperm : (idsOfL (b :: bs) ++ idsOfL cur).Perm
          (b.id :: (idsOfL bs ++ idsOfL (cur ++ b.children))) := by
        apply perm_of_ms
        simp only [idsOfL_cons, idsOfL_append, idsOfN_eq,
          ← Multiset.coe_add, ← Multiset.cons_coe, ← Multiset.singleton_add]
        abel
      have hold' : ∀ i ∈ idsOfL bs ++ idsOfL (cur ++ b.children), i ≤ c := by
        intro i hi
        exact hold i (hperm.mem_iff.mpr (List.mem_cons_of_mem _ hi))
      have hnd' : (idsOfL bs ++ idsOfL (cur ++ b.children)).Nodup :=
        (List.nodup_cons.mp (hperm.nodup hnd)).2
      obtain ⟨ha, hbn, hc2⟩ := ih (cur ++ b.children) c hold' hnd'
      refine ⟨ha, hbn, ?_⟩
      intro i hi
      rcases hc2 i hi with h | h
      · exact Or.inl (hperm.mem_iff.mpr (List.mem_cons_of_mem _ h))
      · exact Or.inr h
    · rw [show mergeNested (b :: bs) cur c
          = ((closeCur cur c).1 ++ b ::
              (mergeNested bs [] (closeCur cur c).2).1,
             (mergeNested bs [] (closeCur cur c).2).2.1,
             (mergeNested bs [] (closeCur cur c).2).2.2) by
        simp [mergeNested, hb]]
      obtain ⟨hndB, hndBs, hndCur, dBM, dBR, dMR⟩ := nodup3 (by
        simpa [idsOfL_cons, List.append_assoc] using hnd :
        ((idsOfN b ++ idsOfL bs) ++ idsOfL cur).Nodup)
      have holdB : ∀ i ∈ idsOfN b, i ≤ c := fun i hi =>
        hold i (by simp [idsOfL_cons, hi])
      have holdBs : ∀ i ∈ idsOfL bs, i ≤ c := fun i hi =>
        hold i (by simp [idsOfL_cons, hi])
      have holdCur : ∀ i ∈ idsOfL cur, i ≤ c := fun i hi =>
        hold i (by simp [hi])
      obtain ⟨hA1, hB1, hC1⟩ := closeCur_fresh cur c holdCur hndCur
      have hold'' : ∀ i ∈ idsOfL bs ++ idsOfL ([] : List BoxNode),
          i ≤ (closeCur cur c).2 := by
        intro i hi
        simp only [idsOfL_nil, List.append_nil] at hi
        exact le_trans (holdBs i hi) hA1
      obtain ⟨hA2, hB2, hC2⟩ := ih [] (closeCur cur c).2 hold''
        (by simpa [idsOfL_nil] using hndBs)
      -- provenance of the recursive call, with the empty-run part removed
      have hC2' : ∀ i ∈ idsOfL (mergeNested bs [] (closeCur cur c).2).1 ++
          idsOfL (mergeNested bs [] (closeCur cur c).2).2.1,
          i ∈ idsOfL bs ∨
            ((closeCur cur c).2 < i ∧
              i ≤ (mergeNested bs [] (closeCur cur c).2).2.2) := by
        intro i hi
        rcases hC2 i hi with h | h
        · exact Or.inl (by simpa [idsOfL_nil] using h)
        · exact Or.inr h
      have hClBound : ∀ i ∈ idsOfL (closeCur cur c).1,
          i ≤ (closeCur cur c).2 := by
        intro i hi
        rcases hC1 i hi with h | h
        · exact le_trans (holdCur i h) hA1
        · exact h.2
      have heq : idsOfL ((closeCur cur c).1 ++ b ::
          (mergeNested bs [] (closeCur cur c).2).1)
          = (idsOfL (closeCur cur c).1 ++ idsOfN b)
            ++ idsOfL (mergeNested bs [] (closeCur cur c).2).1 := by
        simp [idsOfL_append, idsOfL_cons, List.append_assoc]
      have hccl : (idsOfL (closeCur cur c).1).Disjoint
          (idsOfN b ++ (idsOfL (mergeNested bs [] (closeCur cur c).2).1 ++
            idsOfL (mergeNested bs [] (closeCur cur c).2).2.1)) := by
        intro i hi hi2
        rcases hC1 i hi with h | h
        · rcases List.mem_append.mp hi2 with h2 | h2
          · exact dBR h2 h
          · rcases hC2' i h2 with h3 | h3
            · exact dMR h3 h
            · exact absurd (holdCur i h) (by omega)
        · rcases List.mem_append.mp hi2 with h2 | h2
          · exact absurd (holdB i h2) (by omega)
          · rcases hC2' i h2 with h3 | h3
            · exact absurd (holdBs i h3) (by omega)
            · omega
      have hbrest : (idsOfN b).Disjoint
          (idsOfL (mergeNested bs [] (closeCur cur c).2).1 ++
            idsOfL (mergeNested bs [] (closeCur cur c).2).2.1) := by
        intro i hi hi2
        rcases hC2' i hi2 with h3 | h3
        · exact dBM hi h3
        · exact absurd (le_trans (holdB i hi) hA1) (by omega)
      refine ⟨le_trans hA1 hA2, ?_, ?_⟩
      · show (idsOfL ((closeCur cur c).1 ++ b ::
            (mergeNested bs [] (closeCur cur c).2).1) ++
            idsOfL (mergeNested bs [] (closeCur cur c).2).2.1).Nodup
        have hgoal : idsOfL ((closeCur cur c).1 ++ b ::
            (mergeNested bs [] (closeCur cur c).2).1) ++
              idsOfL (mergeNested bs [] (closeCur cur c).2).2.1
            = idsOfL (closeCur cur c).1 ++ (idsOfN b ++
                (idsOfL (mergeNested bs [] (closeCur cur c).2).1 ++
                 idsOfL (mergeNested bs [] (closeCur cur c).2).2.1)) := by
          simp [idsOfL_append, idsOfL_cons, List.append_assoc]
        rw [hgoal]
        exact List.Nodup.append hB1 (List.Nodup.append hndB hB2 hbrest) hccl
      · show ∀ i ∈ idsOfL ((closeCur cur c).1 ++ b ::
            (mergeNested bs [] (closeCur cur c).2).1) ++
            idsOfL (mergeNested bs [] (closeCur cur c).2).2.1,
          i ∈ idsOfL (b :: bs) ++ idsOfL cur ∨
            (c < i ∧ i ≤ (mergeNested bs [] (closeCur cur c).2).2.2)
        intro i hi
        rcases List.mem_append.mp hi with hacc | hcur2
        · rw [heq] at hacc
          rcases List.mem_append.mp hacc with hacc | hacc
          · rcases List.mem_append.mp hacc with hacc | hacc
            · rcases hC1 i hacc with h | h
              · exact Or.inl (by simp [h])
              · exact Or.inr ⟨h.1, le_trans h.2 hA2⟩
            · exact Or.inl (by simp [idsOfL_cons]; tauto)
          · rcases hC2' i (List.mem_append.mpr (Or.inl hacc)) with h | h
            · exact Or.inl (by simp [idsOfL_cons]; tauto)
            · exact Or.inr ⟨by omega, h.2⟩
        · rcases hC2' i (List.mem_append.mpr (Or.inr hcur2)) with h | h
          · exact Or.inl (by simp [idsOfL_cons]; tauto)
          · exact Or.inr ⟨by omega, h.2⟩

theorem idsOfN_textAnonBox (pd : Option DisplayType) (s : String)
    (tid i : Nat) : idsOfN (textAnonBox pd s tid i) = [i] := by
  cases pd with
  | none => simp [textAnonBox, mkAnonInline, idsOfN_eq, BoxNode.id,
      BoxNode.children, idsOfL_nil]
  | some p =>
    by_cases hb : blockifiesChildren p
    · by_cases hg : (p == .grid || p == .inlineGrid)
      · simp [textAnonBox, hb, hg, mkAnonGridItem, idsOfN_eq, BoxNode.id,
          BoxNode.children, idsOfL_nil]
      · simp [textAnonBox, hb, hg, mkAnonFlexItem, idsOfN_eq, BoxNode.id,
          BoxNode.children, idsOfL_nil]
    · simp [textAnonBox, hb, mkAnonInline, idsOfN_eq, BoxNode.id,
        BoxNode.children, idsOfL_nil]

theorem idsOfN_mkAnonInline (i : Nat) (s : String) (t : Nat) :
    idsOfN (mkAnonInline i s t) = [i] := by
  simp [mkAnonInline, idsOfN_eq, BoxNode.id, BoxNode.children, idsOfL_nil]

theorem idsOfN_mkElemBox (eid : Nat) (tag cn : String) (st : Option String)
    (kids : List SNode) (d : DisplayType) (pb : Bool)
    (pd : Option DisplayType) (i : Nat) (ch : List BoxNode) :
    idsOfN (mkElemBox eid tag cn st kids d pb pd i ch) = i :: idsOfL ch := by
  rw [idsOfN_eq, mkElemBox_id, mkElemBox_children]

/-- The simultaneous freshness induction (Invariant I2): every entry point
consumes a counter window, all new ids lie strictly inside it, the splitter
additionally re-emits its current-run ids, and ids are pairwise distinct. -/
theorem generation_fresh :
    ∀ n : Nat,
    (∀ nodes pd pbt c, sizeL nodes ≤ n →
      c ≤ (processLoop nodes pd pbt c).2 ∧
      (idsOfL (processLoop nodes pd pbt c).1).Nodup ∧
      (∀ i ∈ idsOfL (processLoop nodes pd pbt c).1,
        c < i ∧ i ≤ (processLoop nodes pd pbt c).2)) ∧
    (∀ nodes pd pbt c, sizeL nodes ≤ n →
      c ≤ (processChildrenFn nodes pd pbt c).2 ∧
      (idsOfL (processChildrenFn nodes pd pbt c).1).Nodup ∧
      (∀ i ∈ idsOfL (processChildrenFn nodes pd pbt c).1,
        c < i ∧ i ≤ (processChildrenFn nodes pd pbt c).2)) ∧
    (∀ nodes inlineD pb cur c, sizeL nodes ≤ n →
      (∀ i ∈ idsOfL cur, i ≤ c) → (idsOfL cur).Nodup →
      c ≤ (splitGo nodes inlineD pb cur c).2 ∧
      (idsOfL (splitGo nodes inlineD pb cur c).1).Nodup ∧
      (∀ i ∈ idsOfL (splitGo nodes inlineD pb cur c).1,
        i ∈ idsOfL cur ∨
          (c < i ∧ i ≤ (splitGo nodes inlineD pb cur c).2))) := by
  intro n
  induction n using Nat.strong_induction_on with
  | _ n ih =>
  have hloop : ∀ nodes pd pbt c, sizeL nodes ≤ n →
      c ≤ (processLoop nodes pd pbt c).2 ∧
      (idsOfL (processLoop nodes pd pbt c).1).Nodup ∧
      (∀ i ∈ idsOfL (processLoop nodes pd pbt c).1,
        c < i ∧ i ≤ (processLoop nodes pd pbt c).2) := by
    intro nodes pd pbt c hsz
    match nodes with
    | [] =>
      rw [pl_nil]
      exact ⟨le_refl _, by simp [idsOfL_nil],
        by intro i hi; simp [idsOfL_nil] at hi⟩
    | .text tid s :: rest =>
      have hrest : sizeL rest < n := by
        have h1 : sizeL (SNode.text tid s :: rest) = 1 + sizeL rest := by
          simp [sizeL, sizeN]
        omega
      by_cases hws : isWhitespaceOnly s
      · rw [pl_text_ws _ _ _ _ _ hws]
        exact (ih _ hrest).1 rest pd pbt c (le_refl _)
      · rw [pl_text_box _ _ _ _ _ (by simpa using hws)]
        obtain ⟨ha, hb, hc2⟩ := (ih _ hrest).1 rest pd pbt (c + 1) (le_refl _)
        have heq : idsOfL (textAnonBox pd s tid (c + 1) ::
            (processLoop rest pd pbt (c + 1)).1)
            = (c + 1) :: idsOfL (processLoop rest pd pbt (c + 1)).1 := by
          rw [idsOfL_cons, idsOfN_textAnonBox]; rfl
        refine ⟨by omega, ?_, ?_⟩
        · rw [heq]
          exact List.nodup_cons.mpr
            ⟨fun hmem => by have := hc2 _ hmem; omega, hb⟩
        · rw [heq]
          intro i hi
          rcases List.mem_cons.mp hi with rfl | hi
          · exact ⟨by omega, ha⟩
          · have := hc2 i hi; omega
    | .elem eid tag cn st kids :: rest =>
      have hsz1 : sizeL (SNode.elem eid tag cn st kids :: rest)
          = 1 + sizeL kids + sizeL rest := by
        simp [sizeL, sizeN]
      have hrest : sizeL rest < n := by omega
      have hkids : sizeL kids < n := by omega
      by_cases hgen : generatesBox (resolveDisplay st tag)
      case neg =>
        rw [pl_elem_none _ _ _ _ _ _ _ (by simpa using hgen)]
        exact (ih _ hrest).1 rest pd pbt c (le_refl _)
      case pos =>
      by_cases hcont : isContents (resolveDisplay st tag)
      case pos =>
        rw [pl_elem_contents _ _ _ _ _ _ _ hgen hcont]
        obtain ⟨ha1, hb1, hc1⟩ := (ih _ hkids).2.1 kids pd pbt c (le_refl _)
        obtain ⟨ha2, hb2, hc2⟩ := (ih _ hrest).1 rest pd pbt
          (processChildrenFn kids pd pbt c).2 (le_refl _)
        rw [idsOfL_append]
        obtain ⟨hn, hw⟩ := win_append hb1 hc1 hb2 hc2 ha1 ha2
        exact ⟨by omega, hn, hw⟩
      case neg =>
      by_cases hsplit : (isInlineLevel (resolveDisplay st tag) &&
          !(parentBFCOf pd) && hasBlockKids kids &&
          !(establishesBlockFormattingContext (resolveDisplay st tag))) = true
      case pos =>
        rw [pl_elem_split _ _ _ _ _ _ _ hgen (by simpa using hcont) hsplit]
        obtain ⟨ha1, hb1, hc1⟩ := (ih _ hkids).2.2 kids (resolveDisplay st tag)
          (parentBlockifiesOf pd) [] c (le_refl _)
          (by intro i hi; simp [idsOfL_nil] at hi) (by simp [idsOfL_nil])
        have hc1' : ∀ i ∈ idsOfL (splitGo kids (resolveDisplay st tag)
            (parentBlockifiesOf pd) [] c).1,
            c < i ∧ i ≤ (splitGo kids (resolveDisplay st tag)
              (parentBlockifiesOf pd) [] c).2 := by
          intro i hi
          rcases hc1 i hi with h | h
          · simp [idsOfL_nil] at h
          · exact h
        obtain ⟨ha2, hb2, hc2⟩ := (ih _ hrest).1 rest pd pbt
          (splitGo kids (resolveDisplay st tag)
            (parentBlockifiesOf pd) [] c).2 (le_refl _)
        rw [idsOfL_append]
        obtain ⟨hn, hw⟩ := win_append hb1 hc1' hb2 hc2 ha1 ha2
        exact ⟨by omega, hn, hw⟩
      case neg =>
        rw [pl_elem_normal _ _ _ _ _ _ _ hgen (by simpa using hcont)
          (by simpa using hsplit)]
        obtain ⟨ha1, hb1, hc1⟩ := (ih _ hkids).2.1 kids (resolveDisplay st tag)
          (some (blockifiedBoxType (resolveDisplay st tag)
            (parentBlockifiesOf pd) pd)) (c + 1) (le_refl _)
        obtain ⟨ha2, hb2, hc2⟩ := (ih _ hrest).1 rest pd pbt
          (processChildrenFn kids (resolveDisplay st tag)
            (some (blockifiedBoxType (resolveDisplay st tag)
              (parentBlockifiesOf pd) pd)) (c + 1)).2 (le_refl _)
        rw [idsOfL_cons, idsOfN_mkElemBox]
        have hhead : ((c + 1) :: idsOfL (processChildrenFn kids
            (resolveDisplay st tag)
            (some (blockifiedBoxType (resolveDisplay st tag)
              (parentBlockifiesOf pd) pd)) (c + 1)).1).Nodup ∧
            ∀ i ∈ (c + 1) :: idsOfL (processChildrenFn kids
              (resolveDisplay st tag)
              (some (blockifiedBoxType (resolveDisplay st tag)
                (parentBlockifiesOf pd) pd)) (c + 1)).1,
              c < i ∧ i ≤ (processChildrenFn kids (resolveDisplay st tag)
                (some (blockifiedBoxType (resolveDisplay st tag)
                  (parentBlockifiesOf pd) pd)) (c + 1)).2 := by
          constructor
          · exact List.nodup_cons.mpr
              ⟨fun hmem => by have := hc1 _ hmem; omega, hb1⟩
          · intro i hi
            rcases List.mem_cons.mp hi with rfl | hi
            · exact ⟨by omega, ha1⟩
            · have := hc1 i hi; omega
        have : (((c + 1) :: idsOfL (processChildrenFn kids
            (resolveDisplay st tag)
            (some (blockifiedBoxType (resolveDisplay st tag)
              (parentBlockifiesOf pd) pd)) (c + 1)).1) ++
            idsOfL (processLoop rest pd pbt
              (processChildrenFn kids (resolveDisplay st tag)
                (some (blockifiedBoxType (resolveDisplay st tag)
                  (parentBlockifiesOf pd) pd)) (c + 1)).2).1).Nodup ∧
            ∀ i ∈ ((c + 1) :: idsOfL (processChildrenFn kids
              (resolveDisplay st tag)
              (some (blockifiedBoxType (resolveDisplay st tag)
                (parentBlockifiesOf pd) pd)) (c + 1)).1) ++
              idsOfL (processLoop rest pd pbt
                (processChildrenFn kids (resolveDisplay st tag)
                  (some (blockifiedBoxType (resolveDisplay st tag)
                    (parentBlockifiesOf pd) pd)) (c + 1)).2).1,
              c < i ∧ i ≤ (processLoop rest pd pbt
                (processChildrenFn kids (resolveDisplay st tag)
                  (some (blockifiedBoxType (resolveDisplay st tag)
                    (parentBlockifiesOf pd) pd)) (c + 1)).2).2 :=
          win_append hhead.1 hhead.2 hb2 hc2 (by omega) ha2
        exact ⟨by omega, this.1, this.2⟩
  have hpcf : ∀ nodes pd pbt c, sizeL nodes ≤ n →
      c ≤ (processChildrenFn nodes pd pbt c).2 ∧
      (idsOfL (processChildrenFn nodes pd pbt c).1).Nodup ∧
      (∀ i ∈ idsOfL (processChildrenFn nodes pd pbt c).1,
        c < i ∧ i ≤ (processChildrenFn nodes pd pbt c).2) := by
    intro nodes pd pbt c hsz
    obtain ⟨ha, hb, hc2⟩ := hloop nodes pd pbt c hsz
    rw [pcf_def]
    by_cases hbc : (parentIsBlockContainerOf pd && !parentBlockifiesOf pd)
      = true
    case neg => rw [if_neg hbc]; exact ⟨ha, hb, hc2⟩
    case pos =>
      rw [if_pos hbc]
      by_cases hany : (processLoop nodes pd pbt c).1.any isBlockishBox = true
      case neg => rw [if_neg hany]; exact ⟨ha, hb, hc2⟩
      case pos =>
        rw [if_pos hany]
        obtain ⟨hwa, hwb, hwc⟩ := wrapGo_fresh (processLoop nodes pd pbt c).1
          Option.none (processLoop nodes pd pbt c).2
          (by
            intro i hi
            simp only [curIdsOf, List.append_nil] at hi
            exact (hc2 i hi).2)
          (by simpa [curIdsOf] using hb)
        refine ⟨by omega, hwb, ?_⟩
        intro i hi
        rcases hwc i hi with h | h
        · simp only [curIdsOf, List.append_nil] at h
          have := hc2 i h
          omega
        · have := h.1; have := h.2; constructor <;> omega
  have hsplitg : ∀ nodes inlineD pb cur c, sizeL nodes ≤ n →
      (∀ i ∈ idsOfL cur, i ≤ c) → (idsOfL cur).Nodup →
      c ≤ (splitGo nodes inlineD pb cur c).2 ∧
      (idsOfL (splitGo nodes inlineD pb cur c).1).Nodup ∧
      (∀ i ∈ idsOfL (splitGo nodes inlineD pb cur c).1,
        i ∈ idsOfL cur ∨
          (c < i ∧ i ≤ (splitGo nodes inlineD pb cur c).2)) := by
    intro nodes inlineD pb cur c hsz hold hnd
    match nodes with
    | [] =>
      rw [sg_nil]
      exact closeCur_fresh cur c hold hnd
    | .text tid s :: rest =>
      have hrest : sizeL rest < n := by
        have h1 : sizeL (SNode.text tid s :: rest) = 1 + sizeL rest := by
          simp [sizeL, sizeN]
        omega
      by_cases hws : isWhitespaceOnly s
      · rw [sg_text_ws _ _ _ _ _ _ hws]
        exact (ih _ hrest).2.2 rest inlineD pb cur c (le_refl _) hold hnd
      · rw [sg_text_box _ _ _ _ _ _ (by simpa using hws)]
        have hold' : ∀ i ∈ idsOfL (cur ++ [mkAnonInline (c + 1) s tid]),
            i ≤ c + 1 := by
          intro i hi
          rw [idsOfL_append, idsOfL_cons, idsOfN_mkAnonInline] at hi
          rcases List.mem_append.mp hi with h | h
          · exact le_trans (hold i h) (Nat.le_succ c)
          · simp [idsOfL_nil] at h; omega
        have hnd' : (idsOfL (cur ++ [mkAnonInline (c + 1) s tid])).Nodup := by
          rw [idsOfL_append, idsOfL_cons, idsOfN_mkAnonInline]
          refine List.Nodup.append hnd (by simp [idsOfL_nil]) ?_
          intro i hi hi2
          simp only [idsOfL_nil, List.append_nil, List.mem_singleton] at hi2
          subst hi2
          exact absurd (hold _ hi) (by omega)
        obtain ⟨ha, hb, hc2⟩ := (ih _ hrest).2.2 rest inlineD pb _ (c + 1)
          (le_refl _) hold' hnd'
        refine ⟨by omega, hb, ?_⟩
        intro i hi
        rcases hc2 i hi with h | h
        · rw [idsOfL_append, idsOfL_cons, idsOfN_mkAnonInline] at h
          rcases List.mem_append.mp h with h2 | h2
          · exact Or.inl h2
          · simp only [idsOfL_nil, List.append_nil, List.mem_singleton] at h2
            subst h2
            exact Or.inr ⟨by omega, by omega⟩
        · exact Or.inr ⟨by omega, h.2⟩
    | .elem eid tag cn st kids :: rest =>
      have hsz1 : sizeL (SNode.elem eid tag cn st kids :: rest)
          = 1 + sizeL kids + sizeL rest := by
        simp [sizeL, sizeN]
      have hrest : sizeL rest < n := by omega
      have hkids : sizeL kids < n := by omega
      by_cases hgen : generatesBox (resolveDisplay st tag)
      case neg =>
        rw [sg_elem_none _ _ _ _ _ _ _ _ (by simpa using hgen)]
        exact (ih _ hrest).2.2 rest inlineD pb cur c (le_refl _) hold hnd
      case pos =>
      by_cases hcont : isContents (resolveDisplay st tag)
      case pos =>
        rw [sg_elem_contents _ _ _ _ _ _ _ _ hgen hcont]
        obtain ⟨ha1, hb1, hc1⟩ := (ih _ hkids).2.1 kids inlineD Option.none c
          (le_refl _)
        have hold' : ∀ i ∈ idsOfL
            (cur ++ (processChildrenFn kids inlineD Option.none c).1),
            i ≤ (processChildrenFn kids inlineD Option.none c).2 := by
          intro i hi
          rw [idsOfL_append] at hi
          rcases List.mem_append.mp hi with h | h
          · exact le_trans (hold i h) ha1
          · exact (hc1 i h).2
        have hnd' : (idsOfL
            (cur ++ (processChildrenFn kids inlineD Option.none c).1)).Nodup := by
          rw [idsOfL_append]
          exact List.Nodup.append hnd hb1
            (disj_of_window hold (fun i hi => (hc1 i hi).1))
        obtain ⟨ha2, hb2, hc2⟩ := (ih _ hrest).2.2 rest inlineD pb _ _
          (le_refl _) hold' hnd'
        refine ⟨by omega, hb2, ?_⟩
        intro i hi
        rcases hc2 i hi with h | h
        · rw [idsOfL_append] at h
          rcases List.mem_append.mp h with h2 | h2
          · exact Or.inl h2
          · have := hc1 i h2
            exact Or.inr ⟨this.1, by omega⟩
        · exact Or.inr ⟨by omega, h.2⟩
      case neg =>
      by_cases hblk : isBlockLevel (resolveDisplay st tag)
      case pos =>
        rw [sg_elem_block _ _ _ _ _ _ _ _ hgen (by simpa using hcont) hblk]
        obtain ⟨hA1, hB1, hC1⟩ := closeCur_fresh cur c hold hnd
        obtain ⟨ha1, hb1, hc1⟩ := (ih _ hkids).2.1 kids (resolveDisplay st tag)
          (some (blockifiedBoxType (resolveDisplay st tag) pb Option.none))
          ((closeCur cur c).2 + 1) (le_refl _)
        obtain ⟨ha2, hb2, hc2⟩ := (ih _ hrest).2.2 rest inlineD pb []
          (processChildrenFn kids (resolveDisplay st tag)
            (some (blockifiedBoxType (resolveDisplay st tag) pb Option.none))
            ((closeCur cur c).2 + 1)).2 (le_refl _)
          (by intro i hi; simp [idsOfL_nil] at hi) (by simp [idsOfL_nil])
        have hc2' : ∀ i ∈ idsOfL (splitGo rest inlineD pb []
            (processChildrenFn kids (resolveDisplay st tag)
              (some (blockifiedBoxType (resolveDisplay st tag) pb Option.none))
              ((closeCur cur c).2 + 1)).2).1,
            (processChildrenFn kids (resolveDisplay st tag)
              (some (blockifiedBoxType (resolveDisplay st tag) pb Option.none))
              ((closeCur cur c).2 + 1)).2 < i ∧
            i ≤ (splitGo rest inlineD pb []
              (processChildrenFn kids (resolveDisplay st tag)
                (some (blockifiedBoxType (resolveDisplay st tag) pb
                  Option.none)) ((closeCur cur c).2 + 1)).2).2 := by
          intro i hi
          rcases hc2 i hi with h | h
          · simp [idsOfL_nil] at h
          · exact h
        have hClBound : ∀ i ∈ idsOfL (closeCur cur c).1,
            i ≤ (closeCur cur c).2 := by
          intro i hi
          rcases hC1 i hi with h | h
          · exact le_trans (hold i h) hA1
          · exact h.2
        have hmids : (((closeCur cur c).2 + 1) ::
            idsOfL (processChildrenFn kids (resolveDisplay st tag)
              (some (blockifiedBoxType (resolveDisplay st tag) pb Option.none))
              ((closeCur cur c).2 + 1)).1).Nodup ∧
            ∀ i ∈ (((closeCur cur c).2 + 1) ::
              idsOfL (processChildrenFn kids (resolveDisplay st tag)
                (some (blockifiedBoxType (resolveDisplay st tag) pb
                  Option.none)) ((closeCur cur c).2 + 1)).1),
              (closeCur cur c).2 < i ∧
                i ≤ (processChildrenFn kids (resolveDisplay st tag)
                  (some (blockifiedBoxType (resolveDisplay st tag) pb
                    Option.none)) ((closeCur cur c).2 + 1)).2 := by
          constructor
          · exact List.nodup_cons.mpr
              ⟨fun hmem => by have := hc1 _ hmem; omega, hb1⟩
          · intro i hi
            rcases List.mem_cons.mp hi with rfl | hi
            · exact ⟨by omega, ha1⟩
            · have := hc1 i hi; omega
        rw [idsOfL_append, idsOfL_cons, idsOfN_mkElemBox]
        obtain ⟨hmn, hmw⟩ := win_append hmids.1 hmids.2 hb2 hc2'
          (by omega) ha2
        refine ⟨by omega, ?_, ?_⟩
        · exact List.Nodup.append hB1 hmn
            (disj_of_window hClBound (fun i hi => (hmw i hi).1))
        · intro i hi
          rcases List.mem_append.mp hi with h | h
          · rcases hC1 i h with h2 | h2
            · exact Or.inl h2
            · exact Or.inr ⟨h2.1, by omega⟩
          · have := hmw i h
            exact Or.inr ⟨by omega, this.2⟩
      case neg =>
      by_cases hnst : (!(establishesBlockFormattingContext
          (resolveDisplay st tag)) && hasBlockKids kids) = true
      case pos =>
        rw [sg_elem_nested _ _ _ _ _ _ _ _ hgen (by simpa using hcont)
          (by simpa using hblk) hnst]
        obtain ⟨ha1, hb1, hc1⟩ := (ih _ hkids).2.2 kids (resolveDisplay st tag)
          pb [] c (le_refl _)
          (by intro i hi; simp [idsOfL_nil] at hi) (by simp [idsOfL_nil])
        have hc1' : ∀ i ∈ idsOfL (splitGo kids (resolveDisplay st tag) pb
            [] c).1, c < i ∧ i ≤ (splitGo kids (resolveDisplay st tag) pb
              [] c).2 := by
          intro i hi
          rcases hc1 i hi with h | h
          · simp [idsOfL_nil] at h
          · exact h
        obtain ⟨hma, hmb, hmc⟩ := mergeNested_fresh
          (splitGo kids (resolveDisplay st tag) pb [] c).1 cur
          (splitGo kids (resolveDisplay st tag) pb [] c).2
          (by
            intro i hi
            rcases List.mem_append.mp hi with h | h
            · exact (hc1' i h).2
            · exact le_trans (hold i h) ha1)
          (by
            refine List.Nodup.append hb1 hnd ?_
            exact (disj_of_window hold
              (fun i hi => (hc1' i hi).1)).symm)
        have hcur' : ∀ i ∈ idsOfL (mergeNested
            (splitGo kids (resolveDisplay st tag) pb [] c).1 cur
            (splitGo kids (resolveDisplay st tag) pb [] c).2).2.1,
            i ≤ (mergeNested
              (splitGo kids (resolveDisplay st tag) pb [] c).1 cur
              (splitGo kids (resolveDisplay st tag) pb [] c).2).2.2 := by
          intro i hi
          rcases hmc i (List.mem_append.mpr (Or.inr hi)) with h | h
          · rcases List.mem_append.mp h with h2 | h2
            · exact le_trans (hc1' i h2).2 hma
            · exact le_trans (hold i h2) (le_trans ha1 hma)
          · exact h.2
        obtain ⟨ha2, hb2, hc2⟩ := (ih _ hrest).2.2 rest inlineD pb
          (mergeNested (splitGo kids (resolveDisplay st tag) pb [] c).1 cur
            (splitGo kids (resolveDisplay st tag) pb [] c).2).2.1
          (mergeNested (splitGo kids (resolveDisplay st tag) pb [] c).1 cur
            (splitGo kids (resolveDisplay st tag) pb [] c).2).2.2 (le_refl _)
          hcur' (List.Nodup.of_append_right hmb)
        have haccB : ∀ i ∈ idsOfL (mergeNested
            (splitGo kids (resolveDisplay st tag) pb [] c).1 cur
            (splitGo kids (resolveDisplay st tag) pb [] c).2).1,
            i ≤ (mergeNested
              (splitGo kids (resolveDisplay st tag) pb [] c).1 cur
              (splitGo kids (resolveDisplay st tag) pb [] c).2).2.2 := by
          intro i hi
          rcases hmc i (List.mem_append.mpr (Or.inl hi)) with h | h
          · rcases List.mem_append.mp h with h2 | h2
            · exact le_trans (hc1' i h2).2 hma
            · exact le_trans (hold i h2) (le_trans ha1 hma)
          · exact h.2
        rw [idsOfL_append]
        refine ⟨by omega, ?_, ?_⟩
        · refine List.Nodup.append (List.Nodup.of_append_left hmb) hb2 ?_
          intro i hi hi2
          rcases hc2 i hi2 with h | h
          · exact (List.disjoint_of_nodup_append hmb) hi h
          · exact absurd (haccB i hi) (by omega)
        · intro i hi
          have hprov3 : i ∈ idsOfL (splitGo kids (resolveDisplay st tag) pb
              [] c).1 ++ idsOfL cur ∨
              ((splitGo kids (resolveDisplay st tag) pb [] c).2 < i ∧
                i ≤ (mergeNested
                  (splitGo kids (resolveDisplay st tag) pb [] c).1 cur
                  (splitGo kids (resolveDisplay st tag) pb [] c).2).2.2) →
              i ∈ idsOfL cur ∨ (c < i ∧ i ≤ (splitGo rest inlineD pb
                (mergeNested
                  (splitGo kids (resolveDisplay st tag) pb [] c).1 cur
                  (splitGo kids (resolveDisplay st tag) pb [] c).2).2.1
                (mergeNested
                  (splitGo kids (resolveDisplay st tag) pb [] c).1 cur
                  (splitGo kids (resolveDisplay st tag) pb [] c).2).2.2).2) := by
            intro h
            rcases h with h | h
            · rcases List.mem_append.mp h with h2 | h2
              · have := hc1' i h2
                exact Or.inr ⟨this.1, by omega⟩
              · exact Or.inl h2
            · exact Or.inr ⟨by omega, by omega⟩
          rcases List.mem_append.mp hi with hi | hi
          · exact hprov3 (hmc i (List.mem_append.mpr (Or.inl hi)))
          · rcases hc2 i hi with h | h
            · exact hprov3 (hmc i (List.mem_append.mpr (Or.inr h)))
            · exact Or.inr ⟨by omega, h.2⟩
      case neg =>
        rw [sg_elem_inline _ _ _ _ _ _ _ _ hgen (by simpa using hcont)
          (by simpa using hblk) (by simpa using hnst)]
        obtain ⟨ha1, hb1, hc1⟩ := (ih _ hkids).2.1 kids (resolveDisplay st tag)
          (some (blockifiedBoxType (resolveDisplay st tag) pb Option.none))
          (c + 1) (le_refl _)
        have hbid : idsOfL (cur ++ [mkElemBox eid tag cn st kids
            (resolveDisplay st tag) pb Option.none (c + 1)
            (processChildrenFn kids (resolveDisplay st tag)
              (some (blockifiedBoxType (resolveDisplay st tag) pb
                Option.none)) (c + 1)).1])
            = idsOfL cur ++ ((c + 1) ::
              idsOfL (processChildrenFn kids (resolveDisplay st tag)
                (some (blockifiedBoxType (resolveDisplay st tag) pb
                  Option.none)) (c + 1)).1) := by
          rw [idsOfL_append, idsOfL_cons, idsOfN_mkElemBox]
          simp [idsOfL_nil]
        have hold' : ∀ i ∈ idsOfL (cur ++ [mkElemBox eid tag cn st kids
            (resolveDisplay st tag) pb Option.none (c + 1)
            (processChildrenFn kids (resolveDisplay st tag)
              (some (blockifiedBoxType (resolveDisplay st tag) pb
                Option.none)) (c + 1)).1]),
            i ≤ (processChildrenFn kids (resolveDisplay st tag)
              (some (blockifiedBoxType (resolveDisplay st tag) pb
                Option.none)) (c + 1)).2 := by
          intro i hi
          rw [hbid] at hi
          rcases List.mem_append.mp hi with h | h
          · exact le_trans (hold i h) (by omega)
          · rcases List.mem_cons.mp h with rfl | h
            · exact ha1
            · exact (hc1 i h).2
        have hnd' : (idsOfL (cur ++ [mkElemBox eid tag cn st kids
            (resolveDisplay st tag) pb Option.none (c + 1)
            (processChildrenFn kids (resolveDisplay st tag)
              (some (blockifiedBoxType (resolveDisplay st tag) pb
                Option.none)) (c + 1)).1])).Nodup := by
          rw [hbid]
          refine List.Nodup.append hnd (List.nodup_cons.mpr
            ⟨fun hmem => by have := hc1 _ hmem; omega, hb1⟩) ?_
          intro i hi hi2
          rcases List.mem_cons.mp hi2 with rfl | h
          · exact absurd (hold _ hi) (by omega)
          · exact absurd (hold _ hi) (by have := hc1 i h; omega)
        obtain ⟨ha2, hb2, hc2⟩ := (ih _ hrest).2.2 rest inlineD pb _ _
          (le_refl _) hold' hnd'
        refine ⟨by omega, hb2, ?_⟩
        intro i hi
        rcases hc2 i hi with h | h
        · rw [hbid] at h
          rcases List.mem_append.mp h with h2 | h2
          · exact Or.inl h2
          · rcases List.mem_cons.mp h2 with rfl | h2
            · exact Or.inr ⟨by omega, by omega⟩
            · have := hc1 i h2
              exact Or.inr ⟨by omega, by omega⟩
        · exact Or.inr ⟨by omega, h.2⟩
  exact ⟨hloop, hpcf, hsplitg⟩

/-- C8 (Invariant I2 / P6): within one generation call all boxes reachable
from the returned root have pairwise-distinct ids; ids are handed out by the
strictly increasing per-call counter (`generateId`), so they are assigned in
creation order, the root taking id 1 and every descendant a later id. -/
theorem claim8_unique_ids (pr : ParseResult) (root : BoxNode)
    (hr : (generateBoxTree pr).1 = some root) :
    (idsOfN root).Nodup ∧
    root.id = 1 ∧ (∀ i ∈ idsOfL root.children, 1 < i) := by
  rcases generateBoxTree_shape pr with h | ⟨root', d0, kids0, pbt0, h1, _,
    hid, _, _, hch⟩
  · rw [hr] at h; exact Option.noConfusion h
  · rw [hr] at h1
    obtain rfl := Option.some.inj h1
    obtain ⟨_, hnd, hwin⟩ := (generation_fresh (sizeL kids0)).2.1 kids0
      (some d0) pbt0 1 (le_refl _)
    rw [← hch] at hnd hwin
    refine ⟨?_, hid, fun i hi => (hwin i hi).1⟩
    rw [idsOfN_eq, hid]
    exact List.nodup_cons.mpr ⟨fun hmem => by have := hwin _ hmem; omega, hnd⟩

/-- Witness for C8 at `<div><span>hi</span></div>`. -/
theorem claim8_witness :
    (generateBoxTree parsedPlainDiv).1 = some witnessRoot ∧
    (idsOfN witnessRoot).Nodup :=
  ⟨witnessRoot_eq,
   (claim8_unique_ids parsedPlainDiv witnessRoot witnessRoot_eq).1⟩

end CssBoxTree
